import Mathlib

/-!
# Matrix keypad driver: scan loop, per-key state machine, timing setters

A shallow embedding of `include/keypad.hpp` and `include/keypad_types.hpp`.

* `uint64_t` members are `Nat`, every unsigned operation that can wrap carries
  an explicit reduction modulo `U64 = 2 ^ 64`;
* `int64_t` values (clock readings, `Key::holdTimer`) are `Int`, the implicit
  conversion to `uint64_t` is `toU64`;
* the values returned by `esp_timer_get_time()` and `gpio_get_level()` are
  inputs of the model (`ScanEnv`), the GPIO output latches are explicit state;
* the FreeRTOS queue is a bounded list, sends use a zero tick timeout as in
  the driver.
-/

namespace EspKeypad

/-! ## Machine integers -/

/-- Number of values of a `uint64_t`, that is `2 ^ 64`. -/
def U64 : Nat := 18446744073709551616

/-- Conversion of a signed 64-bit value to `uint64_t` (reduction modulo `2 ^ 64`). -/
def toU64 (x : Int) : Nat := (x % (U64 : Int)).toNat

/-! ## keypad_types.hpp -/

/-- Logic level of a key in the matrix. -/
inductive KeyLevel where
  | LOW
  | HIGH
  deriving DecidableEq, Repr

/-- State of the key based on transitions. -/
inductive KeyState where
  | IDLE
  | RELEASED
  | PRESSED
  | HELD
  deriving DecidableEq, Repr

/-- Representation of a single keypad key; `holdTimer` is an `int64_t`,
value-initialised to `0`. -/
structure Key where
  chr : Char
  state : KeyState
  holdTimer : Int := 0
  deriving DecidableEq, Repr

/-- The two result codes the setters return. -/
inductive esp_err_t where
  | ESP_OK
  | ESP_ERR_INVALID_ARG
  deriving DecidableEq, Repr

/-! ## FreeRTOS queue of `char` items -/

/-- A queue created by `xQueueCreate(cap, sizeof(char))`: at most `cap` items,
oldest first. -/
structure Queue where
  cap : Nat
  items : List Char
  deriving DecidableEq, Repr

/-- The call `xQueueCreate(cap, sizeof(char))`, assumed to succeed. -/
def xQueueCreate (cap : Nat) : Queue := { cap := cap, items := [] }

/-- The call `xQueueSend(q, &c, 0)`: with a zero tick timeout the call returns at
once, `pdTRUE` (`true`) after appending `c` at the back when a slot is free,
`errQUEUE_FULL` (`false`) with the queue untouched otherwise. -/
def xQueueSend (q : Queue) (c : Char) : Bool × Queue :=
  if q.items.length < q.cap then (true, { q with items := q.items ++ [c] })
  else (false, q)

/-- The call `xQueueReceive(q, &c, timeout)` once the wait is over: the oldest
item is removed and returned when there is one, otherwise the call fails. -/
def xQueueReceive (q : Queue) : Option Char × Queue :=
  match q.items with
  | [] => (none, q)
  | a :: rest => (some a, { q with items := rest })

/-! ## GPIO output latches -/

/-- The call `gpio_set_level(pin, v)` on the output latches. -/
def gpio_set_level (g : Int → Bool) (pin : Int) (v : Bool) : Int → Bool :=
  fun p => if p = pin then v else g p

/-! ## The `Keypad<rows, cols>` class -/

/-- Data members of `Keypad<rows, cols>` (the task handle is left out). -/
structure Keypad (rows cols : Nat) where
  m_pressedKeyQueue : Queue
  m_heldKeyQueue : Queue
  m_keys : Fin rows → Fin cols → Key
  m_rowPins : Fin rows → Int
  m_colPins : Fin cols → Int
  m_lastScanTime : Nat
  m_debounceTime : Nat
  m_holdTime : Nat

/-- Default debounce time in microseconds (`KEYPAD_DEFAULT_DEBOUNCE`). -/
def KEYPAD_DEFAULT_DEBOUNCE : Nat := 10 * 1000

/-- Default hold time in microseconds (`KEYPAD_DEFAULT_HOLD`). -/
def KEYPAD_DEFAULT_HOLD : Nat := 500 * 1000

/-- Assignment `m_keys[r][c] = key`. -/
def setKey {rows cols : Nat} (keys : Fin rows → Fin cols → Key) (r : Fin rows) (c : Fin cols)
    (key : Key) : Fin rows → Fin cols → Key :=
  fun r2 c2 => if r2 = r ∧ c2 = c then key else keys r2 c2

/-- The constructor: every key starts `IDLE` with its mapped character, both
queues are created with `bufSize` slots (`CONFIG_KEYPAD_MAX_BUFFER_SIZE`, a
build-time setting), the timing members take their defaults. -/
def Keypad.init {rows cols : Nat} (keymap : Fin rows → Fin cols → Char)
    (rowPins : Fin rows → Int) (colPins : Fin cols → Int) (bufSize : Nat) : Keypad rows cols :=
  { m_pressedKeyQueue := xQueueCreate bufSize
    m_heldKeyQueue := xQueueCreate bufSize
    m_keys := fun r c => { chr := keymap r c, state := KeyState.IDLE }
    m_rowPins := rowPins
    m_colPins := colPins
    m_lastScanTime := 0
    m_debounceTime := KEYPAD_DEFAULT_DEBOUNCE
    m_holdTime := KEYPAD_DEFAULT_HOLD }

/-- The part of `initPins` that touches the output latches: every column pin is
driven low. -/
def initPins {cols : Nat} (colPins : Fin cols → Int) (g : Int → Bool) : Int → Bool :=
  (List.finRange cols).foldl (fun g c => gpio_set_level g (colPins c) false) g

/-- Non-blocking outcome of `getPressed`: the received character, if any. -/
def getPressed {rows cols : Nat} (k : Keypad rows cols) : Option Char × Keypad rows cols :=
  ((xQueueReceive k.m_pressedKeyQueue).1,
    { k with m_pressedKeyQueue := (xQueueReceive k.m_pressedKeyQueue).2 })

/-- Non-blocking outcome of `getHeld`: the received character, if any. -/
def getHeld {rows cols : Nat} (k : Keypad rows cols) : Option Char × Keypad rows cols :=
  ((xQueueReceive k.m_heldKeyQueue).1,
    { k with m_heldKeyQueue := (xQueueReceive k.m_heldKeyQueue).2 })

/-- Set debounce time in microseconds; `m_holdTime - 100000` is evaluated in
`uint64_t`. -/
def setDebounceTime {rows cols : Nat} (k : Keypad rows cols) (debounceTime : Nat) :
    esp_err_t × Keypad rows cols :=
  if debounceTime > 1000 ∧ debounceTime < (k.m_holdTime + U64 - 100000) % U64 then
    (esp_err_t.ESP_OK, { k with m_debounceTime := debounceTime })
  else (esp_err_t.ESP_ERR_INVALID_ARG, k)

/-- Set hold time in microseconds; `m_debounceTime + 100000` is evaluated in
`uint64_t`. -/
def setHoldTime {rows cols : Nat} (k : Keypad rows cols) (holdTime : Nat) :
    esp_err_t × Keypad rows cols :=
  if holdTime > (k.m_debounceTime + 100000) % U64 then
    (esp_err_t.ESP_OK, { k with m_holdTime := holdTime })
  else (esp_err_t.ESP_ERR_INVALID_ARG, k)

/-- The private `updateKey(r, c, level)`; `now` is the value `esp_timer_get_time()`
returns in this call (it is read at most once, on the `HIGH` branches). The
difference `now - key.holdTimer` is signed and converted to `uint64_t` for the
comparison with `m_holdTime`. -/
def updateKey {rows cols : Nat} (k : Keypad rows cols) (r : Fin rows) (c : Fin cols)
    (level : KeyLevel) (now : Int) : Keypad rows cols :=
  let key := k.m_keys r c
  if level = KeyLevel.HIGH then
    if key.state = KeyState.IDLE ∨ key.state = KeyState.RELEASED then
      { k with
        m_keys := setKey k.m_keys r c { key with state := KeyState.PRESSED, holdTimer := now }
        m_pressedKeyQueue := (xQueueSend k.m_pressedKeyQueue key.chr).2 }
    else if key.state = KeyState.PRESSED ∧ toU64 (now - key.holdTimer) > k.m_holdTime then
      { k with
        m_keys := setKey k.m_keys r c { key with state := KeyState.HELD }
        m_heldKeyQueue := (xQueueSend k.m_heldKeyQueue key.chr).2 }
    else k
  else
    if key.state = KeyState.PRESSED ∨ key.state = KeyState.HELD then
      { k with m_keys := setKey k.m_keys r c { key with state := KeyState.RELEASED } }
    else if key.state = KeyState.RELEASED then
      { k with m_keys := setKey k.m_keys r c { key with state := KeyState.IDLE } }
    else k

/-- What the outside world answers during one call of `scanKeys`: the clock
readings at the gate, inside `updateKey` for each cell and at the final
assignment, and the value `gpio_get_level` returns in the iteration for cell
`(r, c)` given the output latches and the pin that is read. -/
structure ScanEnv (rows cols : Nat) where
  timeGate : Int
  timeKey : Fin rows → Fin cols → Int
  timeDone : Int
  gpio_get_level : Fin rows → Fin cols → (Int → Bool) → Int → Bool

/-- Body of the inner loop of `scanKeys` for cell `(r, c)`. -/
def scanCell {rows cols : Nat} (env : ScanEnv rows cols) (r : Fin rows) (c : Fin cols)
    (s : Keypad rows cols × (Int → Bool)) : Keypad rows cols × (Int → Bool) :=
  let g1 := gpio_set_level s.2 (s.1.m_colPins c) true
  let level := if env.gpio_get_level r c g1 (s.1.m_rowPins r) then KeyLevel.HIGH else KeyLevel.LOW
  let k1 := updateKey s.1 r c level (env.timeKey r c)
  (k1, gpio_set_level g1 (s.1.m_colPins c) false)

/-- The two nested `for` loops of `scanKeys`: rows outside, columns inside. -/
def scanLoops {rows cols : Nat} (env : ScanEnv rows cols)
    (s : Keypad rows cols × (Int → Bool)) : Keypad rows cols × (Int → Bool) :=
  (List.finRange rows).foldl
    (fun s r => (List.finRange cols).foldl (fun s c => scanCell env r c s) s) s

/-- Perform one keypad scan and update states. The gate subtracts in `uint64_t`,
the final assignment converts the clock reading to `uint64_t`. -/
def scanKeys {rows cols : Nat} (k : Keypad rows cols) (g : Int → Bool)
    (env : ScanEnv rows cols) : Keypad rows cols × (Int → Bool) :=
  if toU64 (env.timeGate - (k.m_lastScanTime : Int)) > k.m_debounceTime then
    let s := scanLoops env (k, g)
    ({ s.1 with m_lastScanTime := toU64 env.timeDone }, s.2)
  else (k, g)

/-- States of the driver reachable from the constructor through its public
operations, setter arguments being `uint64_t` values. -/
inductive Reachable {rows cols : Nat} : Keypad rows cols → Prop where
  | init (keymap : Fin rows → Fin cols → Char) (rowPins : Fin rows → Int)
      (colPins : Fin cols → Int) (bufSize : Nat) :
      Reachable (Keypad.init keymap rowPins colPins bufSize)
  | setDebounceTime {k : Keypad rows cols} (y : Nat) :
      Reachable k → y < U64 → Reachable (setDebounceTime k y).2
  | setHoldTime {k : Keypad rows cols} (x : Nat) :
      Reachable k → x < U64 → Reachable (setHoldTime k x).2
  | scanKeys {k : Keypad rows cols} (g : Int → Bool) (env : ScanEnv rows cols) :
      Reachable k → Reachable (scanKeys k g env).1
  | getPressed {k : Keypad rows cols} : Reachable k → Reachable (getPressed k).2
  | getHeld {k : Keypad rows cols} : Reachable k → Reachable (getHeld k).2

/-! ## Auxiliary notions used in the statements -/

/-- The members that `updateKey` and the two loops of a sweep never write. -/
def SameSetup {rows cols : Nat} (k1 k2 : Keypad rows cols) : Prop :=
  k2.m_debounceTime = k1.m_debounceTime ∧ k2.m_holdTime = k1.m_holdTime ∧
  k2.m_lastScanTime = k1.m_lastScanTime ∧ k2.m_rowPins = k1.m_rowPins ∧
  k2.m_colPins = k1.m_colPins

/-- The relation the setters maintain between the two timing members. -/
def TimingOK {rows cols : Nat} (k : Keypad rows cols) : Prop :=
  1000 ≤ k.m_debounceTime ∧ k.m_debounceTime + 100000 < k.m_holdTime ∧ k.m_holdTime < U64

/-! ## The example application (`examples/basic/main.cpp`) -/

/-- The 4x4 keymap of the example. -/
def exampleKeymap : Fin 4 → Fin 4 → Char :=
  ![!['1', '2', '3', 'A'],
    !['4', '5', '6', 'B'],
    !['7', '8', '9', 'C'],
    !['*', '0', '#', 'D']]

/-- Row pins of the example: GPIO 13, 12, 14, 27. -/
def exampleRowPins : Fin 4 → Int := ![13, 12, 14, 27]

/-- Column pins of the example: GPIO 26, 25, 33, 32. -/
def exampleColPins : Fin 4 → Int := ![26, 25, 33, 32]

/-- The keypad object of the example right after construction, with ten queue
slots. -/
def exampleKeypad : Keypad 4 4 := Keypad.init exampleKeymap exampleRowPins exampleColPins 10

/-- A one-key keypad in the given key state whose two queues, of two slots each,
are full. -/
def fullKeypad (state : KeyState) : Keypad 1 1 :=
  { m_pressedKeyQueue := { cap := 2, items := ['a', 'b'] }
    m_heldKeyQueue := { cap := 2, items := ['c', 'd'] }
    m_keys := fun _ _ => { chr := 'k', state := state, holdTimer := 1000 }
    m_rowPins := fun _ => 13
    m_colPins := fun _ => 26
    m_lastScanTime := 0
    m_debounceTime := KEYPAD_DEFAULT_DEBOUNCE
    m_holdTime := KEYPAD_DEFAULT_HOLD }

/-! ## Notions used to describe a sweep -/

/-- Cells in the order in which the two loops of `scanKeys` visit them. -/
def scanOrder (rows cols : Nat) : List (Fin rows × Fin cols) :=
  (List.finRange rows).flatMap fun r => (List.finRange cols).map fun c => (r, c)

/-- The `KeyLevel` computed from the value `gpio_get_level` returned. -/
def toLevel (b : Bool) : KeyLevel := if b then KeyLevel.HIGH else KeyLevel.LOW

/-- Successive calls of `updateKey`, one for each cell of `l` in turn, cell
`(r, c)` with the level `toLevel (lv r c)` and the clock reading `time r c`. -/
def updateKeys {rows cols : Nat} (lv : Fin rows → Fin cols → Bool)
    (time : Fin rows → Fin cols → Int) (k : Keypad rows cols)
    (l : List (Fin rows × Fin cols)) : Keypad rows cols :=
  l.foldl (fun k rc => updateKey k rc.1 rc.2 (toLevel (lv rc.1 rc.2)) (time rc.1 rc.2)) k

/-- The output latches at the moment the loop over the cells of `l`, started
with the latches `g`, reads the row pin for cell `rc`: the latches left by the
cells before it, with the pin of the column of `rc` driven high. -/
def latchAtRead {rows cols : Nat} (colPins : Fin cols → Int) :
    List (Fin rows × Fin cols) → (Int → Bool) → Fin rows × Fin cols → (Int → Bool)
  | [], g, rc => gpio_set_level g (colPins rc.2) true
  | a :: l, g, rc =>
    if a = rc then gpio_set_level g (colPins a.2) true
    else latchAtRead colPins l (gpio_set_level g (colPins a.2) false) rc

/-- The value `gpio_get_level` returns for each cell during the loop over the
cells of `l` started with the latches `g`. -/
def levelsReadIn {rows cols : Nat} (k : Keypad rows cols) (env : ScanEnv rows cols)
    (l : List (Fin rows × Fin cols)) (g : Int → Bool) : Fin rows → Fin cols → Bool :=
  fun r c => env.gpio_get_level r c (latchAtRead k.m_colPins l g (r, c)) (k.m_rowPins r)

/-- The value `gpio_get_level` returns for each cell during a sweep of
`scanKeys` started with the latches `g`. -/
def levelsRead {rows cols : Nat} (k : Keypad rows cols) (g : Int → Bool)
    (env : ScanEnv rows cols) : Fin rows → Fin cols → Bool :=
  levelsReadIn k env (scanOrder rows cols) g

/-- Successive zero-timeout sends of the characters of `cs`. -/
def sendAll (q : Queue) (cs : List Char) : Queue :=
  cs.foldl (fun q ch => (xQueueSend q ch).2) q

/-- The test under which `updateKey` sends to the pressed queue. -/
def sendsPressed (key : Key) (active : Bool) : Bool :=
  active && (key.state == KeyState.IDLE || key.state == KeyState.RELEASED)

/-- The test under which `updateKey` sends to the held queue. -/
def sendsHeld (holdTime : Nat) (key : Key) (active : Bool) (now : Int) : Bool :=
  active && (key.state == KeyState.PRESSED && decide (toU64 (now - key.holdTimer) > holdTime))

/-- During the scan described by `env`, the read for cell `(r, c)` returns
`lv r c` whenever the pin of column `c` is driven high. -/
def ReadsWhileDriven {rows cols : Nat} (k : Keypad rows cols) (env : ScanEnv rows cols)
    (lv : Fin rows → Fin cols → Bool) : Prop :=
  ∀ (r : Fin rows) (c : Fin cols) (g : Int → Bool),
    g (k.m_colPins c) = true → env.gpio_get_level r c g (k.m_rowPins r) = lv r c

/-- The scan environment of a sweep during which every clock reading is `t`
and the read for cell `(r, c)` returns `lv r c`. -/
def sweepEnv {rows cols : Nat} (t : Int) (lv : Fin rows → Fin cols → Bool) :
    ScanEnv rows cols :=
  { timeGate := t
    timeKey := fun _ _ => t
    timeDone := t
    gpio_get_level := fun r c _ _ => lv r c }

/-- Characters received by `n` successive calls of `getPressed`. -/
def getPressedN {rows cols : Nat} : Nat → Keypad rows cols → List Char × Keypad rows cols
  | 0, k => ([], k)
  | n + 1, k =>
    ((getPressed k).1.toList ++ (getPressedN n (getPressed k).2).1,
      (getPressedN n (getPressed k).2).2)

/-- Characters received by `n` successive calls of `getHeld`. -/
def getHeldN {rows cols : Nat} : Nat → Keypad rows cols → List Char × Keypad rows cols
  | 0, k => ([], k)
  | n + 1, k =>
    ((getHeld k).1.toList ++ (getHeldN n (getHeld k).2).1,
      (getHeldN n (getHeld k).2).2)

/-- Output latches that are all low. -/
def allLow : Int → Bool := fun _ => false

/-- A keypad of a single key right after construction, with ten queue slots. -/
def oneKeyKeypad : Keypad 1 1 := Keypad.init (fun _ _ => 'k') (fun _ => 13) (fun _ => 26) 10

/-- Characters that a sweep over the object `k` sends to the pressed queue, in
the order of the sweep. -/
def pressedSent {rows cols : Nat} (k : Keypad rows cols) (lv : Fin rows → Fin cols → Bool) :
    List Char :=
  ((scanOrder rows cols).filter fun rc => sendsPressed (k.m_keys rc.1 rc.2) (lv rc.1 rc.2)).map
    fun rc => (k.m_keys rc.1 rc.2).chr

/-- Characters that a sweep over the object `k` sends to the held queue, in the
order of the sweep. -/
def heldSent {rows cols : Nat} (k : Keypad rows cols) (lv : Fin rows → Fin cols → Bool)
    (time : Fin rows → Fin cols → Int) : List Char :=
  ((scanOrder rows cols).filter fun rc =>
      sendsHeld k.m_holdTime (k.m_keys rc.1 rc.2) (lv rc.1 rc.2) (time rc.1 rc.2)).map
    fun rc => (k.m_keys rc.1 rc.2).chr

/-- A 2x2 keypad right after construction, with ten queue slots. -/
def twoByTwoKeypad : Keypad 2 2 :=
  Keypad.init ![!['a', 'b'], !['c', 'd']] ![13, 12] ![26, 25] 10

/-- The keypad of the end-to-end scenario: a 4x4 keypad right after
construction, all keys `IDLE` and both queues empty, with the debounce time set
to `0` and the hold time to `holdTime` microseconds. -/
def scenarioKeypad (keymap : Fin 4 → Fin 4 → Char) (rowPins colPins : Fin 4 → Int)
    (bufSize holdTime : Nat) : Keypad 4 4 :=
  { Keypad.init keymap rowPins colPins bufSize with
    m_debounceTime := 0
    m_holdTime := holdTime }

/-- Only the cell at row 1, column 2 reads active. -/
def onlyRow1Col2 : Fin 4 → Fin 4 → Bool := fun r c => decide (r = 1 ∧ c = 2)

/-- A scan during which every clock reading is `t` and the read for each cell
returns `lv r c` while the pin of its column is driven high. -/
def IdealSweep {rows cols : Nat} (k : Keypad rows cols) (env : ScanEnv rows cols) (t : Int)
    (lv : Fin rows → Fin cols → Bool) : Prop :=
  env.timeGate = t ∧ (∀ r c, env.timeKey r c = t) ∧ env.timeDone = t ∧
    ReadsWhileDriven k env lv

/-- State of the end-to-end scenario once the key at row 1, column 2 has been
pressed at clock reading `t`: that key is in state `st` with `holdTimer = t`,
every other key is `IDLE`, the pressed queue holds the mapped character, the
held queue holds `held`, and `m_lastScanTime = last`. -/
def scenarioState (keymap : Fin 4 → Fin 4 → Char) (rowPins colPins : Fin 4 → Int)
    (bufSize holdTime : Nat) (t : Int) (st : KeyState) (held : List Char) (last : Nat) :
    Keypad 4 4 :=
  { m_pressedKeyQueue := { cap := bufSize, items := [keymap 1 2] }
    m_heldKeyQueue := { cap := bufSize, items := held }
    m_keys := setKey (fun r c => { chr := keymap r c, state := KeyState.IDLE }) 1 2
      { chr := keymap 1 2, state := st, holdTimer := t }
    m_rowPins := rowPins
    m_colPins := colPins
    m_lastScanTime := last
    m_debounceTime := 0
    m_holdTime := holdTime }

/-- Successive calls of `scanKeys`, one for each scan environment of the list. -/
def scanSequence {rows cols : Nat} (s : Keypad rows cols × (Int → Bool))
    (envs : List (ScanEnv rows cols)) : Keypad rows cols × (Int → Bool) :=
  envs.foldl (fun s env => scanKeys s.1 s.2 env) s

/-- The successive `updateKey` calls that one cell receives over accepted
sweeps in which it reads active, `ts` being the clock readings of those calls. -/
def sustainKey {rows cols : Nat} (k : Keypad rows cols) (r : Fin rows) (c : Fin cols)
    (ts : List Int) : Keypad rows cols :=
  ts.foldl (fun k t => updateKey k r c KeyLevel.HIGH t) k

/-- A list of scans, started in state `s`, each of which passes the debounce
gate and reads cell `(r, c)` active while the pin of its column is driven high. -/
inductive ActiveSweeps {rows cols : Nat} (r : Fin rows) (c : Fin cols) :
    Keypad rows cols × (Int → Bool) → List (ScanEnv rows cols) → Prop where
  | nil (s : Keypad rows cols × (Int → Bool)) : ActiveSweeps r c s []
  | cons (s : Keypad rows cols × (Int → Bool)) (env : ScanEnv rows cols)
      (envs : List (ScanEnv rows cols)) (lv : Fin rows → Fin cols → Bool) :
      toU64 (env.timeGate - (s.1.m_lastScanTime : Int)) > s.1.m_debounceTime →
      ReadsWhileDriven s.1 env lv → lv r c = true →
      ActiveSweeps r c (scanKeys s.1 s.2 env) envs → ActiveSweeps r c s (env :: envs)

/-- The cells whose `updateKey` call sends to the held queue during the scan
`env` of the object `k` with latches `g`, in scan order; none when the scan does
not pass the debounce gate. -/
def heldCells {rows cols : Nat} (k : Keypad rows cols) (g : Int → Bool)
    (env : ScanEnv rows cols) : List (Fin rows × Fin cols) :=
  if toU64 (env.timeGate - (k.m_lastScanTime : Int)) > k.m_debounceTime then
    (scanOrder rows cols).filter fun rc =>
      sendsHeld k.m_holdTime (k.m_keys rc.1 rc.2) (levelsRead k g env rc.1 rc.2)
        (env.timeKey rc.1 rc.2)
  else []

/-- The cells that send to the held queue over the successive scans `envs`
started in state `s`, in the order of the sends. -/
def heldLog {rows cols : Nat} :
    Keypad rows cols × (Int → Bool) → List (ScanEnv rows cols) → List (Fin rows × Fin cols)
  | _, [] => []
  | s, env :: envs => heldCells s.1 s.2 env ++ heldLog (scanKeys s.1 s.2 env) envs

/-! ## Frame facts: what the scan leaves alone -/

section Frame

variable {rows cols : Nat}

theorem updateKey_debounceTime (k : Keypad rows cols) (r : Fin rows) (c : Fin cols)
    (level : KeyLevel) (now : Int) :
    (updateKey k r c level now).m_debounceTime = k.m_debounceTime := by
  unfold updateKey
  simp only []
  split_ifs <;> rfl

theorem updateKey_holdTime (k : Keypad rows cols) (r : Fin rows) (c : Fin cols)
    (level : KeyLevel) (now : Int) :
    (updateKey k r c level now).m_holdTime = k.m_holdTime := by
  unfold updateKey
  simp only []
  split_ifs <;> rfl

theorem updateKey_lastScanTime (k : Keypad rows cols) (r : Fin rows) (c : Fin cols)
    (level : KeyLevel) (now : Int) :
    (updateKey k r c level now).m_lastScanTime = k.m_lastScanTime := by
  unfold updateKey
  simp only []
  split_ifs <;> rfl

theorem updateKey_rowPins (k : Keypad rows cols) (r : Fin rows) (c : Fin cols)
    (level : KeyLevel) (now : Int) :
    (updateKey k r c level now).m_rowPins = k.m_rowPins := by
  unfold updateKey
  simp only []
  split_ifs <;> rfl

theorem updateKey_colPins (k : Keypad rows cols) (r : Fin rows) (c : Fin cols)
    (level : KeyLevel) (now : Int) :
    (updateKey k r c level now).m_colPins = k.m_colPins := by
  unfold updateKey
  simp only []
  split_ifs <;> rfl

theorem SameSetup.refl (k : Keypad rows cols) : SameSetup k k :=
  ⟨rfl, rfl, rfl, rfl, rfl⟩

theorem SameSetup.trans {k1 k2 k3 : Keypad rows cols} (h12 : SameSetup k1 k2)
    (h23 : SameSetup k2 k3) : SameSetup k1 k3 := by
  obtain ⟨a1, a2, a3, a4, a5⟩ := h12
  obtain ⟨b1, b2, b3, b4, b5⟩ := h23
  exact ⟨b1.trans a1, b2.trans a2, b3.trans a3, b4.trans a4, b5.trans a5⟩

theorem updateKey_sameSetup (k : Keypad rows cols) (r : Fin rows) (c : Fin cols)
    (level : KeyLevel) (now : Int) : SameSetup k (updateKey k r c level now) :=
  ⟨updateKey_debounceTime k r c level now, updateKey_holdTime k r c level now,
    updateKey_lastScanTime k r c level now, updateKey_rowPins k r c level now,
    updateKey_colPins k r c level now⟩

theorem scanCell_sameSetup (env : ScanEnv rows cols) (r : Fin rows) (c : Fin cols)
    (s : Keypad rows cols × (Int → Bool)) : SameSetup s.1 (scanCell env r c s).1 :=
  updateKey_sameSetup _ _ _ _ _

theorem foldl_sameSetup {α : Type} (f : Keypad rows cols × (Int → Bool) → α →
    Keypad rows cols × (Int → Bool)) (hf : ∀ s a, SameSetup s.1 (f s a).1) (l : List α)
    (s : Keypad rows cols × (Int → Bool)) : SameSetup s.1 (l.foldl f s).1 := by
  induction l generalizing s with
  | nil => exact SameSetup.refl _
  | cons a l ih => exact (hf s a).trans (ih (f s a))

theorem scanLoops_sameSetup (env : ScanEnv rows cols) (s : Keypad rows cols × (Int → Bool)) :
    SameSetup s.1 (scanLoops env s).1 := by
  unfold scanLoops
  apply foldl_sameSetup
  intro s r
  apply foldl_sameSetup
  intro s c
  exact scanCell_sameSetup env r c s

theorem scanKeys_debounceTime (k : Keypad rows cols) (g : Int → Bool) (env : ScanEnv rows cols) :
    (scanKeys k g env).1.m_debounceTime = k.m_debounceTime := by
  unfold scanKeys
  split_ifs
  · exact (scanLoops_sameSetup env (k, g)).1
  · rfl

theorem scanKeys_holdTime (k : Keypad rows cols) (g : Int → Bool) (env : ScanEnv rows cols) :
    (scanKeys k g env).1.m_holdTime = k.m_holdTime := by
  unfold scanKeys
  split_ifs
  · exact (scanLoops_sameSetup env (k, g)).2.1
  · rfl

end Frame

/-! ## Timing configuration -/

section Timing

variable {rows cols : Nat}

theorem setDebounceTime_timingOK (k : Keypad rows cols) (y : Nat) (h : TimingOK k) :
    TimingOK (setDebounceTime k y).2 := by
  obtain ⟨h1, h2, h3⟩ := h
  unfold setDebounceTime
  split_ifs with hc
  · obtain ⟨hy1, hy2⟩ := hc
    have hw : (k.m_holdTime + U64 - 100000) % U64 = k.m_holdTime - 100000 := by
      have : k.m_holdTime + U64 - 100000 = (k.m_holdTime - 100000) + U64 := by omega
      rw [this, Nat.add_mod_right]
      exact Nat.mod_eq_of_lt (by omega)
    rw [hw] at hy2
    refine ⟨?_, ?_, h3⟩
    · show 1000 ≤ y
      omega
    · show y + 100000 < k.m_holdTime
      omega
  · exact ⟨h1, h2, h3⟩

theorem setHoldTime_timingOK (k : Keypad rows cols) (x : Nat) (hx : x < U64) (h : TimingOK k) :
    TimingOK (setHoldTime k x).2 := by
  obtain ⟨h1, h2, h3⟩ := h
  unfold setHoldTime
  split_ifs with hc
  · rw [Nat.mod_eq_of_lt (by omega)] at hc
    exact ⟨h1, hc, hx⟩
  · exact ⟨h1, h2, h3⟩

theorem reachable_timingOK {k : Keypad rows cols} (h : Reachable k) : TimingOK k := by
  induction h with
  | init keymap rowPins colPins bufSize =>
    refine ⟨?_, ?_, ?_⟩
    · show 1000 ≤ 10 * 1000
      omega
    · show 10 * 1000 + 100000 < 500 * 1000
      omega
    · show 500 * 1000 < 18446744073709551616
      omega
  | setDebounceTime y _ _ ih => exact setDebounceTime_timingOK _ y ih
  | setHoldTime x _ hx ih => exact setHoldTime_timingOK _ x hx ih
  | scanKeys g env _ ih =>
    unfold TimingOK
    rw [scanKeys_debounceTime, scanKeys_holdTime]
    exact ih
  | getPressed _ ih => exact ih
  | getHeld _ ih => exact ih

end Timing

/-! ## Claims on the timing setters -/

section TimingClaims

variable {rows cols : Nat}

/-- C2: in every reachable configuration `setHoldTime x` returns
`ESP_ERR_INVALID_ARG` and changes nothing when `x ≤ m_debounceTime + 100000`, and
otherwise returns `ESP_OK` and only overwrites `m_holdTime` with `x`. -/
theorem setHoldTime_contract (k : Keypad rows cols) (hk : Reachable k) (x : Nat) :
    (x ≤ k.m_debounceTime + 100000 →
      setHoldTime k x = (esp_err_t.ESP_ERR_INVALID_ARG, k)) ∧
    (¬ x ≤ k.m_debounceTime + 100000 →
      setHoldTime k x = (esp_err_t.ESP_OK, { k with m_holdTime := x }) ∧
      (setHoldTime k x).2.m_holdTime = x ∧
      (setHoldTime k x).2.m_debounceTime = k.m_debounceTime) := by
  obtain ⟨_, h2, h3⟩ := reachable_timingOK hk
  have hw : (k.m_debounceTime + 100000) % U64 = k.m_debounceTime + 100000 :=
    Nat.mod_eq_of_lt (by omega)
  unfold setHoldTime
  rw [hw]
  constructor
  · intro hx
    rw [if_neg (by omega)]
  · intro hx
    rw [if_pos (by omega)]
    exact ⟨rfl, rfl, rfl⟩

theorem setHoldTime_contract_witness :
    Reachable exampleKeypad ∧
    setHoldTime exampleKeypad 110000 = (esp_err_t.ESP_ERR_INVALID_ARG, exampleKeypad) ∧
    setHoldTime exampleKeypad 110001 =
      (esp_err_t.ESP_OK, { exampleKeypad with m_holdTime := 110001 }) :=
  ⟨Reachable.init _ _ _ _,
    (setHoldTime_contract exampleKeypad (Reachable.init _ _ _ _) 110000).1 (by decide),
    ((setHoldTime_contract exampleKeypad (Reachable.init _ _ _ _) 110001).2 (by decide)).1⟩

/-- C3: in every reachable configuration `setDebounceTime y` returns
`ESP_ERR_INVALID_ARG` and changes nothing when `y ≤ 1000` or
`y ≥ m_holdTime - 100000` (difference of integers, no wraparound), and otherwise
returns `ESP_OK` and only overwrites `m_debounceTime` with `y`. -/
theorem setDebounceTime_contract (k : Keypad rows cols) (hk : Reachable k) (y : Nat) :
    ((y ≤ 1000 ∨ (k.m_holdTime : Int) - 100000 ≤ (y : Int)) →
      setDebounceTime k y = (esp_err_t.ESP_ERR_INVALID_ARG, k)) ∧
    (¬ (y ≤ 1000 ∨ (k.m_holdTime : Int) - 100000 ≤ (y : Int)) →
      setDebounceTime k y = (esp_err_t.ESP_OK, { k with m_debounceTime := y }) ∧
      (setDebounceTime k y).2.m_debounceTime = y ∧
      (setDebounceTime k y).2.m_holdTime = k.m_holdTime) := by
  obtain ⟨_, h2, h3⟩ := reachable_timingOK hk
  have hw : (k.m_holdTime + U64 - 100000) % U64 = k.m_holdTime - 100000 := by
    have : k.m_holdTime + U64 - 100000 = (k.m_holdTime - 100000) + U64 := by omega
    rw [this, Nat.add_mod_right]
    exact Nat.mod_eq_of_lt (by omega)
  unfold setDebounceTime
  rw [hw]
  constructor
  · intro hy
    rw [if_neg (by omega)]
  · intro hy
    rw [if_pos (by omega)]
    exact ⟨rfl, rfl, rfl⟩

theorem setDebounceTime_contract_witness :
    Reachable exampleKeypad ∧
    setDebounceTime exampleKeypad 1000 = (esp_err_t.ESP_ERR_INVALID_ARG, exampleKeypad) ∧
    setDebounceTime exampleKeypad 400000 = (esp_err_t.ESP_ERR_INVALID_ARG, exampleKeypad) ∧
    setDebounceTime exampleKeypad 399999 =
      (esp_err_t.ESP_OK, { exampleKeypad with m_debounceTime := 399999 }) :=
  ⟨Reachable.init _ _ _ _,
    (setDebounceTime_contract exampleKeypad (Reachable.init _ _ _ _) 1000).1
      (Or.inl (by decide)),
    (setDebounceTime_contract exampleKeypad (Reachable.init _ _ _ _) 400000).1
      (Or.inr (by decide)),
    ((setDebounceTime_contract exampleKeypad (Reachable.init _ _ _ _) 399999).2
      (by decide)).1⟩

/-- C10: in every reachable state `m_debounceTime ≥ 1000` and
`m_holdTime > m_debounceTime + 100000`, both members are `uint64_t` values, and
neither `m_debounceTime + 100000` nor `m_holdTime - 100000` wraps modulo `2 ^ 64`
in the checks of the setters. -/
theorem timing_invariant (k : Keypad rows cols) (hk : Reachable k) :
    1000 ≤ k.m_debounceTime ∧
    k.m_holdTime > k.m_debounceTime + 100000 ∧
    k.m_debounceTime < U64 ∧ k.m_holdTime < U64 ∧
    (k.m_debounceTime + 100000) % U64 = k.m_debounceTime + 100000 ∧
    100000 ≤ k.m_holdTime ∧
    (((k.m_holdTime + U64 - 100000) % U64 : Nat) : Int) = (k.m_holdTime : Int) - 100000 := by
  obtain ⟨h1, h2, h3⟩ := reachable_timingOK hk
  have hw : (k.m_holdTime + U64 - 100000) % U64 = k.m_holdTime - 100000 := by
    have : k.m_holdTime + U64 - 100000 = (k.m_holdTime - 100000) + U64 := by omega
    rw [this, Nat.add_mod_right]
    exact Nat.mod_eq_of_lt (by omega)
  refine ⟨h1, h2, by omega, h3, Nat.mod_eq_of_lt (by omega), by omega, ?_⟩
  rw [hw]
  omega

theorem timing_invariant_witness :
    Reachable (setHoldTime (setDebounceTime exampleKeypad 2000).2 102001).2 ∧
    (setHoldTime (setDebounceTime exampleKeypad 2000).2 102001).2.m_debounceTime = 2000 ∧
    (setHoldTime (setDebounceTime exampleKeypad 2000).2 102001).2.m_holdTime = 102001 ∧
    (setHoldTime (setDebounceTime exampleKeypad 2000).2 102001).2.m_holdTime >
      (setHoldTime (setDebounceTime exampleKeypad 2000).2 102001).2.m_debounceTime + 100000 :=
  ⟨Reachable.setHoldTime 102001
      (Reachable.setDebounceTime 2000 (Reachable.init _ _ _ _) (by decide)) (by decide),
    by decide, by decide,
    (timing_invariant _ (Reachable.setHoldTime 102001
      (Reachable.setDebounceTime 2000 (Reachable.init _ _ _ _) (by decide)) (by decide))).2.1⟩

end TimingClaims

/-! ## Claims on the per-key state machine -/

section KeyClaims

variable {rows cols : Nat}

theorem U64_eq : U64 = 2 ^ 64 := by
  norm_num [U64]

theorem toU64_of_nonneg_lt (x : Int) (h0 : 0 ≤ x) (h1 : x < (U64 : Int)) :
    ((toU64 x : Nat) : Int) = x := by
  unfold toU64
  rw [Int.emod_eq_of_lt h0 h1]
  exact Int.toNat_of_nonneg h0

theorem setKey_same (keys : Fin rows → Fin cols → Key) (r : Fin rows) (c : Fin cols) :
    setKey keys r c (keys r c) = keys := by
  funext r2 c2
  unfold setKey
  split_ifs with h
  · rw [h.1, h.2]
  · rfl

theorem setKey_at (keys : Fin rows → Fin cols → Key) (r : Fin rows) (c : Fin cols) (key : Key) :
    setKey keys r c key r c = key := by
  simp [setKey]

theorem setKey_other (keys : Fin rows → Fin cols → Key) (r r2 : Fin rows) (c c2 : Fin cols)
    (key : Key) (h : ¬ (r2 = r ∧ c2 = c)) : setKey keys r c key r2 c2 = keys r2 c2 := by
  simp [setKey, h]

/-- C1: `updateKey` follows the transition table. With an active level an `IDLE`
or `RELEASED` key becomes `PRESSED`, its character is sent to the pressed queue
and `holdTimer` takes the clock reading; a `PRESSED` key whose `holdTimer` is not
later than the clock reading becomes `HELD`, with its character sent to the held
queue, exactly when `now - holdTimer > m_holdTime`, and is otherwise untouched; a
`HELD` key is untouched. With an inactive level `PRESSED` and `HELD` become
`RELEASED`, `RELEASED` and `IDLE` become `IDLE`, and no queue is written. Nothing
else in the object changes, and a `HELD` key never becomes `PRESSED`. For an
arbitrary clock reading the test on a `PRESSED` key is the one on the difference
converted to `uint64_t`, with the same two outcomes. -/
theorem updateKey_transition_table (k : Keypad rows cols) (r : Fin rows) (c : Fin cols)
    (level : KeyLevel) (now : Int) :
    (level = KeyLevel.HIGH →
      (k.m_keys r c).state = KeyState.IDLE ∨ (k.m_keys r c).state = KeyState.RELEASED →
      updateKey k r c level now =
        { k with
          m_keys := setKey k.m_keys r c
            { k.m_keys r c with state := KeyState.PRESSED, holdTimer := now }
          m_pressedKeyQueue := (xQueueSend k.m_pressedKeyQueue (k.m_keys r c).chr).2 }) ∧
    (level = KeyLevel.HIGH → (k.m_keys r c).state = KeyState.PRESSED →
      (k.m_keys r c).holdTimer ≤ now → now - (k.m_keys r c).holdTimer < (U64 : Int) →
      updateKey k r c level now =
        if now - (k.m_keys r c).holdTimer > (k.m_holdTime : Int) then
          { k with
            m_keys := setKey k.m_keys r c { k.m_keys r c with state := KeyState.HELD }
            m_heldKeyQueue := (xQueueSend k.m_heldKeyQueue (k.m_keys r c).chr).2 }
        else k) ∧
    (level = KeyLevel.HIGH → (k.m_keys r c).state = KeyState.HELD →
      updateKey k r c level now = k) ∧
    (level = KeyLevel.LOW →
      (k.m_keys r c).state = KeyState.PRESSED ∨ (k.m_keys r c).state = KeyState.HELD →
      updateKey k r c level now =
        { k with
          m_keys := setKey k.m_keys r c { k.m_keys r c with state := KeyState.RELEASED } }) ∧
    (level = KeyLevel.LOW →
      (k.m_keys r c).state = KeyState.RELEASED ∨ (k.m_keys r c).state = KeyState.IDLE →
      updateKey k r c level now =
        { k with m_keys := setKey k.m_keys r c { k.m_keys r c with state := KeyState.IDLE } }) ∧
    ((k.m_keys r c).state = KeyState.HELD →
      ((updateKey k r c level now).m_keys r c).state ≠ KeyState.PRESSED) ∧
    (level = KeyLevel.HIGH → (k.m_keys r c).state = KeyState.PRESSED →
      updateKey k r c level now =
        if toU64 (now - (k.m_keys r c).holdTimer) > k.m_holdTime then
          { k with
            m_keys := setKey k.m_keys r c { k.m_keys r c with state := KeyState.HELD }
            m_heldKeyQueue := (xQueueSend k.m_heldKeyQueue (k.m_keys r c).chr).2 }
        else k) := by
  refine ⟨?_, ?_, ?_, ?_, ?_, ?_, ?_⟩
  · intro hl hs
    unfold updateKey
    simp only [hl, if_true, hs]
  · intro hl hs hmono hrange
    have hconv := toU64_of_nonneg_lt (now - (k.m_keys r c).holdTimer) (by omega) hrange
    have hiff : toU64 (now - (k.m_keys r c).holdTimer) > k.m_holdTime ↔
        now - (k.m_keys r c).holdTimer > (k.m_holdTime : Int) := by
      constructor <;> intro h <;> omega
    unfold updateKey
    simp only [hl, if_true, hs, hiff, true_and]
    simp
  · intro hl hs
    unfold updateKey
    simp [hl, hs]
  · intro hl hs
    unfold updateKey
    simp only [hl, hs]
    simp
  · intro hl hs
    unfold updateKey
    rcases hs with hs | hs
    · simp [hl, hs]
    · simp only [hl, hs]
      have : ({ k.m_keys r c with state := KeyState.IDLE } : Key) = k.m_keys r c := by
        rw [← hs]
      simp [this, setKey_same]
  · intro hs
    unfold updateKey
    cases level <;> simp [hs, setKey_at]
  · intro hl hs
    unfold updateKey
    simp only [hl, if_true, hs, true_and]
    simp

theorem updateKey_transition_table_witness :
    (exampleKeypad.m_keys 1 2).state = KeyState.IDLE ∧
    updateKey exampleKeypad 1 2 KeyLevel.HIGH 5000 =
      { exampleKeypad with
        m_keys := setKey exampleKeypad.m_keys 1 2
          { exampleKeypad.m_keys 1 2 with state := KeyState.PRESSED, holdTimer := 5000 }
        m_pressedKeyQueue :=
          (xQueueSend exampleKeypad.m_pressedKeyQueue (exampleKeypad.m_keys 1 2).chr).2 } ∧
    (updateKey (updateKey exampleKeypad 1 2 KeyLevel.HIGH 5000) 1 2 KeyLevel.HIGH
      505001).m_heldKeyQueue.items = ['6'] ∧
    (updateKey (updateKey exampleKeypad 1 2 KeyLevel.HIGH 5000) 1 2 KeyLevel.HIGH
      505000).m_heldKeyQueue.items = [] :=
  ⟨by decide,
    (updateKey_transition_table exampleKeypad 1 2 KeyLevel.HIGH 5000).1 rfl (Or.inl (by decide)),
    by
      rw [(updateKey_transition_table (updateKey exampleKeypad 1 2 KeyLevel.HIGH 5000) 1 2
        KeyLevel.HIGH 505001).2.1 rfl (by decide) (by decide) (by decide)]
      decide,
    by
      rw [(updateKey_transition_table (updateKey exampleKeypad 1 2 KeyLevel.HIGH 5000) 1 2
        KeyLevel.HIGH 505000).2.1 rfl (by decide) (by decide) (by decide)]
      decide⟩

theorem xQueueSend_length_le (q : Queue) (ch : Char) (h : q.items.length ≤ q.cap) :
    (xQueueSend q ch).2.items.length ≤ (xQueueSend q ch).2.cap := by
  unfold xQueueSend
  split_ifs with hlt
  · simp only [List.length_append, List.length_singleton]
    omega
  · exact h

theorem xQueueSend_cap (q : Queue) (ch : Char) : (xQueueSend q ch).2.cap = q.cap := by
  unfold xQueueSend
  split_ifs <;> rfl

theorem xQueueSend_full (q : Queue) (ch : Char) (h : q.items.length = q.cap) :
    xQueueSend q ch = (false, q) := by
  unfold xQueueSend
  rw [if_neg (by omega)]

/-- C6: with capacity `N` and `N` items already in the pressed queue, the send
of `updateKey` for an active `IDLE` or `RELEASED` key fails at once, the pressed
queue keeps its contents and its `N` items, and the key still becomes `PRESSED`;
likewise a `PRESSED` key that passes the hold test with a full held queue
becomes `HELD` while the held queue keeps its contents. In every call a queue
within its capacity stays within its capacity. -/
theorem updateKey_full_queue_drops (k : Keypad rows cols) (r : Fin rows) (c : Fin cols)
    (now : Int) (N : Nat) :
    (k.m_pressedKeyQueue.cap = N → k.m_pressedKeyQueue.items.length = N →
      (k.m_keys r c).state = KeyState.IDLE ∨ (k.m_keys r c).state = KeyState.RELEASED →
      xQueueSend k.m_pressedKeyQueue (k.m_keys r c).chr = (false, k.m_pressedKeyQueue) ∧
      (updateKey k r c KeyLevel.HIGH now).m_pressedKeyQueue = k.m_pressedKeyQueue ∧
      (updateKey k r c KeyLevel.HIGH now).m_pressedKeyQueue.items.length = N ∧
      (updateKey k r c KeyLevel.HIGH now).m_heldKeyQueue = k.m_heldKeyQueue ∧
      ((updateKey k r c KeyLevel.HIGH now).m_keys r c).state = KeyState.PRESSED) ∧
    (k.m_heldKeyQueue.cap = N → k.m_heldKeyQueue.items.length = N →
      (k.m_keys r c).state = KeyState.PRESSED →
      toU64 (now - (k.m_keys r c).holdTimer) > k.m_holdTime →
      xQueueSend k.m_heldKeyQueue (k.m_keys r c).chr = (false, k.m_heldKeyQueue) ∧
      (updateKey k r c KeyLevel.HIGH now).m_heldKeyQueue = k.m_heldKeyQueue ∧
      (updateKey k r c KeyLevel.HIGH now).m_heldKeyQueue.items.length = N ∧
      (updateKey k r c KeyLevel.HIGH now).m_pressedKeyQueue = k.m_pressedKeyQueue ∧
      ((updateKey k r c KeyLevel.HIGH now).m_keys r c).state = KeyState.HELD) ∧
    (∀ level : KeyLevel,
      (k.m_pressedKeyQueue.items.length ≤ k.m_pressedKeyQueue.cap →
        (updateKey k r c level now).m_pressedKeyQueue.items.length ≤
          (updateKey k r c level now).m_pressedKeyQueue.cap) ∧
      (k.m_heldKeyQueue.items.length ≤ k.m_heldKeyQueue.cap →
        (updateKey k r c level now).m_heldKeyQueue.items.length ≤
          (updateKey k r c level now).m_heldKeyQueue.cap) ∧
      (updateKey k r c level now).m_pressedKeyQueue.cap = k.m_pressedKeyQueue.cap ∧
      (updateKey k r c level now).m_heldKeyQueue.cap = k.m_heldKeyQueue.cap) := by
  refine ⟨?_, ?_, ?_⟩
  · intro hcap hlen hs
    have hfull := xQueueSend_full k.m_pressedKeyQueue (k.m_keys r c).chr (hlen.trans hcap.symm)
    unfold updateKey
    simp only [if_true, hs, hfull]
    simp [setKey_at, hlen]
  · intro hcap hlen hs hgt
    have hfull := xQueueSend_full k.m_heldKeyQueue (k.m_keys r c).chr (hlen.trans hcap.symm)
    unfold updateKey
    simp only [if_true, hs, hgt, hfull]
    simp [setKey_at, hlen]
  · intro level
    unfold updateKey
    simp only []
    refine ⟨?_, ?_, ?_, ?_⟩
    · intro h
      split_ifs <;> first | exact h | exact xQueueSend_length_le _ _ h
    · intro h
      split_ifs <;> first | exact h | exact xQueueSend_length_le _ _ h
    · split_ifs <;> first | rfl | exact xQueueSend_cap _ _
    · split_ifs <;> first | rfl | exact xQueueSend_cap _ _

theorem updateKey_full_queue_drops_witness :
    (updateKey (fullKeypad KeyState.IDLE) 0 0 KeyLevel.HIGH 2000).m_pressedKeyQueue =
      { cap := 2, items := ['a', 'b'] } ∧
    ((updateKey (fullKeypad KeyState.IDLE) 0 0 KeyLevel.HIGH 2000).m_keys 0 0).state =
      KeyState.PRESSED ∧
    (updateKey (fullKeypad KeyState.PRESSED) 0 0 KeyLevel.HIGH 600000).m_heldKeyQueue =
      { cap := 2, items := ['c', 'd'] } ∧
    ((updateKey (fullKeypad KeyState.PRESSED) 0 0 KeyLevel.HIGH 600000).m_keys 0 0).state =
      KeyState.HELD :=
  ⟨((updateKey_full_queue_drops (fullKeypad KeyState.IDLE) 0 0 2000 2).1 rfl rfl
      (Or.inl rfl)).2.1,
    ((updateKey_full_queue_drops (fullKeypad KeyState.IDLE) 0 0 2000 2).1 rfl rfl
      (Or.inl rfl)).2.2.2.2,
    ((updateKey_full_queue_drops (fullKeypad KeyState.PRESSED) 0 0 600000 2).2.1 rfl rfl rfl
      (by decide)).2.1,
    ((updateKey_full_queue_drops (fullKeypad KeyState.PRESSED) 0 0 600000 2).2.1 rfl rfl rfl
      (by decide)).2.2.2.2⟩

end KeyClaims

/-! ## One sweep as a sequence of `updateKey` calls -/

section Sweep

variable {rows cols : Nat}

theorem gpio_set_level_at (g : Int → Bool) (pin : Int) (v : Bool) :
    gpio_set_level g pin v pin = v := by
  simp [gpio_set_level]

theorem gpio_set_level_twice (g : Int → Bool) (pin : Int) (v w : Bool) :
    gpio_set_level (gpio_set_level g pin v) pin w = gpio_set_level g pin w := by
  funext p
  unfold gpio_set_level
  split_ifs <;> rfl

theorem scanCell_eq (k0 : Keypad rows cols) (env : ScanEnv rows cols)
    (r : Fin rows) (c : Fin cols) (s : Keypad rows cols × (Int → Bool))
    (hs : SameSetup k0 s.1) :
    scanCell env r c s =
      (updateKey s.1 r c
          (toLevel (env.gpio_get_level r c (gpio_set_level s.2 (k0.m_colPins c) true)
            (k0.m_rowPins r)))
          (env.timeKey r c),
        gpio_set_level s.2 (k0.m_colPins c) false) := by
  obtain ⟨_, _, _, hrow, hcol⟩ := hs
  unfold scanCell
  simp only [hrow, hcol, gpio_set_level_twice]
  rfl

theorem updateKeys_cons (lv : Fin rows → Fin cols → Bool) (time : Fin rows → Fin cols → Int)
    (k : Keypad rows cols) (a : Fin rows × Fin cols) (l : List (Fin rows × Fin cols)) :
    updateKeys lv time k (a :: l) =
      updateKeys lv time (updateKey k a.1 a.2 (toLevel (lv a.1 a.2)) (time a.1 a.2)) l := rfl

theorem updateKeys_congr (lv1 lv2 : Fin rows → Fin cols → Bool)
    (time : Fin rows → Fin cols → Int) (l : List (Fin rows × Fin cols))
    (k : Keypad rows cols) (h : ∀ rc ∈ l, lv1 rc.1 rc.2 = lv2 rc.1 rc.2) :
    updateKeys lv1 time k l = updateKeys lv2 time k l := by
  induction l generalizing k with
  | nil => rfl
  | cons a l ih =>
    rw [updateKeys_cons, updateKeys_cons, h a (List.mem_cons_self _ _)]
    exact ih _ (fun rc hrc => h rc (List.mem_cons_of_mem _ hrc))

theorem latchAtRead_high (colPins : Fin cols → Int) (l : List (Fin rows × Fin cols))
    (g : Int → Bool) (rc : Fin rows × Fin cols) :
    latchAtRead colPins l g rc (colPins rc.2) = true := by
  induction l generalizing g with
  | nil => exact gpio_set_level_at _ _ _
  | cons a l ih =>
    unfold latchAtRead
    split_ifs with h
    · rw [h]
      exact gpio_set_level_at _ _ _
    · exact ih _

/-- The loop over distinct cells is the sequence of `updateKey` calls with the
levels read, each while the pin of the column of its cell is driven high. -/
theorem scanCells_eq (k0 : Keypad rows cols) (env : ScanEnv rows cols)
    (l : List (Fin rows × Fin cols)) (hl : l.Nodup) (s : Keypad rows cols × (Int → Bool))
    (hs : SameSetup k0 s.1) :
    l.foldl (fun s rc => scanCell env rc.1 rc.2 s) s =
      (updateKeys (levelsReadIn k0 env l s.2) env.timeKey s.1 l,
        l.foldl (fun g rc => gpio_set_level g (k0.m_colPins rc.2) false) s.2) := by
  induction l generalizing s with
  | nil => rfl
  | cons a l ih =>
    rw [List.nodup_cons] at hl
    simp only [List.foldl_cons]
    rw [scanCell_eq k0 env a.1 a.2 s hs]
    rw [ih hl.2 _ (hs.trans (updateKey_sameSetup _ _ _ _ _))]
    rw [updateKeys_cons]
    have hhead : levelsReadIn k0 env (a :: l) s.2 a.1 a.2 =
        env.gpio_get_level a.1 a.2 (gpio_set_level s.2 (k0.m_colPins a.2) true)
          (k0.m_rowPins a.1) := by
      unfold levelsReadIn latchAtRead
      rw [if_pos rfl]
    have htail : ∀ rc ∈ l, levelsReadIn k0 env l (gpio_set_level s.2 (k0.m_colPins a.2) false)
        rc.1 rc.2 = levelsReadIn k0 env (a :: l) s.2 rc.1 rc.2 := by
      intro rc hrc
      have hne : ¬ a = (rc.1, rc.2) := fun h => hl.1 (h ▸ hrc)
      show _ = env.gpio_get_level rc.1 rc.2 (latchAtRead k0.m_colPins (a :: l) s.2 (rc.1, rc.2))
        (k0.m_rowPins rc.1)
      unfold latchAtRead
      rw [if_neg hne]
      rfl
    rw [hhead, updateKeys_congr _ _ env.timeKey l _ htail]

theorem foldl_rows_cols {σ : Type} (F : σ → Fin rows × Fin cols → σ) (lc : List (Fin cols))
    (lr : List (Fin rows)) (s : σ) :
    (lr.flatMap fun r => lc.map fun c => (r, c)).foldl F s =
      lr.foldl (fun s r => lc.foldl (fun s c => F s (r, c)) s) s := by
  induction lr generalizing s with
  | nil => rfl
  | cons r lr ih =>
    simp only [List.flatMap_cons, List.foldl_append, List.foldl_cons, List.foldl_map]
    exact ih _

theorem scanLoops_eq_foldl (env : ScanEnv rows cols) (s : Keypad rows cols × (Int → Bool)) :
    scanLoops env s = (scanOrder rows cols).foldl (fun s rc => scanCell env rc.1 rc.2 s) s := by
  unfold scanLoops scanOrder
  rw [foldl_rows_cols]

theorem scanOrder_nodup (rows cols : Nat) : (scanOrder rows cols).Nodup :=
  List.Nodup.product (List.nodup_finRange rows) (List.nodup_finRange cols)

theorem mem_scanOrder (rc : Fin rows × Fin cols) : rc ∈ scanOrder rows cols := by
  unfold scanOrder
  simp only [List.mem_flatMap, List.mem_map]
  exact ⟨rc.1, List.mem_finRange _, rc.2, List.mem_finRange _, rfl⟩

/-- The two loops of `scanKeys` are the sequence of `updateKey` calls, one for
each cell in scan order, with the levels read. -/
theorem scanLoops_read (k : Keypad rows cols) (g : Int → Bool) (env : ScanEnv rows cols) :
    scanLoops env (k, g) =
      (updateKeys (levelsRead k g env) env.timeKey k (scanOrder rows cols),
        (scanOrder rows cols).foldl (fun g rc => gpio_set_level g (k.m_colPins rc.2) false) g) := by
  rw [scanLoops_eq_foldl, scanCells_eq k env _ (scanOrder_nodup rows cols) _ (SameSetup.refl k)]
  rfl

theorem levelsRead_of_readsWhileDriven (k : Keypad rows cols) (g : Int → Bool)
    (env : ScanEnv rows cols) (lv : Fin rows → Fin cols → Bool)
    (hlv : ReadsWhileDriven k env lv) : levelsRead k g env = lv := by
  funext r c
  exact hlv r c _ (latchAtRead_high k.m_colPins (scanOrder rows cols) g (r, c))

theorem scanLoops_eq (k : Keypad rows cols) (g : Int → Bool) (env : ScanEnv rows cols)
    (lv : Fin rows → Fin cols → Bool) (hlv : ReadsWhileDriven k env lv) :
    scanLoops env (k, g) =
      (updateKeys lv env.timeKey k (scanOrder rows cols),
        (scanOrder rows cols).foldl (fun g rc => gpio_set_level g (k.m_colPins rc.2) false) g) := by
  rw [scanLoops_read, levelsRead_of_readsWhileDriven k g env lv hlv]

theorem scanOrder_pairwise (rows cols : Nat) :
    (scanOrder rows cols).Pairwise
      (fun a b => a.1 < b.1 ∨ (a.1 = b.1 ∧ a.2 < b.2)) := by
  unfold scanOrder
  rw [List.pairwise_flatMap]
  constructor
  · intro r _
    rw [List.pairwise_map]
    exact (List.pairwise_lt_finRange cols).imp (fun h => Or.inr ⟨rfl, h⟩)
  · refine (List.pairwise_lt_finRange rows).imp ?_
    intro r1 r2 h x hx y hy
    simp only [List.mem_map] at hx hy
    obtain ⟨c1, _, rfl⟩ := hx
    obtain ⟨c2, _, rfl⟩ := hy
    exact Or.inl h

theorem updateKey_keys_other (k : Keypad rows cols) (r r2 : Fin rows) (c c2 : Fin cols)
    (level : KeyLevel) (now : Int) (h : ¬ (r2 = r ∧ c2 = c)) :
    (updateKey k r c level now).m_keys r2 c2 = k.m_keys r2 c2 := by
  unfold updateKey
  simp only []
  split_ifs <;> first | rfl | exact setKey_other _ _ _ _ _ _ h

theorem updateKey_key_congr (k1 k2 : Keypad rows cols) (r : Fin rows) (c : Fin cols)
    (level : KeyLevel) (now : Int) (hkey : k1.m_keys r c = k2.m_keys r c)
    (hhold : k1.m_holdTime = k2.m_holdTime) :
    (updateKey k1 r c level now).m_keys r c = (updateKey k2 r c level now).m_keys r c := by
  unfold updateKey
  simp only [hkey, hhold]
  split_ifs <;> first | exact hkey | simp [setKey_at]

theorem updateKey_pressedQueue (k : Keypad rows cols) (r : Fin rows) (c : Fin cols)
    (b : Bool) (now : Int) :
    (updateKey k r c (toLevel b) now).m_pressedKeyQueue =
      if sendsPressed (k.m_keys r c) b then
        (xQueueSend k.m_pressedKeyQueue (k.m_keys r c).chr).2
      else k.m_pressedKeyQueue := by
  unfold updateKey sendsPressed toLevel
  cases b <;> cases hst : (k.m_keys r c).state <;> simp [hst]
  split_ifs <;> rfl

theorem updateKey_heldQueue (k : Keypad rows cols) (r : Fin rows) (c : Fin cols)
    (b : Bool) (now : Int) :
    (updateKey k r c (toLevel b) now).m_heldKeyQueue =
      if sendsHeld k.m_holdTime (k.m_keys r c) b now then
        (xQueueSend k.m_heldKeyQueue (k.m_keys r c).chr).2
      else k.m_heldKeyQueue := by
  unfold updateKey sendsHeld toLevel
  cases b <;> cases hst : (k.m_keys r c).state <;> simp [hst]
  split_ifs <;> rfl

theorem updateKeys_keys_not_mem (lv : Fin rows → Fin cols → Bool)
    (time : Fin rows → Fin cols → Int) (l : List (Fin rows × Fin cols))
    (k : Keypad rows cols) (r : Fin rows) (c : Fin cols) (h : (r, c) ∉ l) :
    (updateKeys lv time k l).m_keys r c = k.m_keys r c := by
  induction l generalizing k with
  | nil => rfl
  | cons a l ih =>
    rw [updateKeys_cons, ih _ (fun hm => h (List.mem_cons_of_mem _ hm))]
    apply updateKey_keys_other
    rintro ⟨h1, h2⟩
    exact h (by rw [h1, h2]; exact List.mem_cons_self _ _)

/-- In a pass over distinct cells every visited cell ends in the key that a
single `updateKey` call on the initial object gives it. -/
theorem updateKeys_keys_mem (lv : Fin rows → Fin cols → Bool)
    (time : Fin rows → Fin cols → Int) (l : List (Fin rows × Fin cols)) (hl : l.Nodup)
    (k : Keypad rows cols) (r : Fin rows) (c : Fin cols) (h : (r, c) ∈ l) :
    (updateKeys lv time k l).m_keys r c =
      (updateKey k r c (toLevel (lv r c)) (time r c)).m_keys r c := by
  induction l generalizing k with
  | nil => exact absurd h (List.not_mem_nil _)
  | cons a l ih =>
    rw [updateKeys_cons]
    rw [List.nodup_cons] at hl
    by_cases ha : a = (r, c)
    · subst ha
      exact updateKeys_keys_not_mem lv time l _ _ _ hl.1
    · have hm : (r, c) ∈ l := by
        rcases List.mem_cons.mp h with h1 | h1
        · exact absurd h1.symm ha
        · exact h1
      rw [ih hl.2 _ hm]
      apply updateKey_key_congr
      · apply updateKey_keys_other
        rintro ⟨h1, h2⟩
        exact ha (by rw [h1, h2])
      · exact updateKey_holdTime _ _ _ _ _

theorem sendAll_cons (q : Queue) (ch : Char) (cs : List Char) :
    sendAll q (ch :: cs) = sendAll (xQueueSend q ch).2 cs := rfl

/-- In a pass over distinct cells the pressed queue receives, in the order of
the pass, the characters of the cells that pass the pressed test in the
initial object. -/
theorem updateKeys_pressedQueue (lv : Fin rows → Fin cols → Bool)
    (time : Fin rows → Fin cols → Int) (l : List (Fin rows × Fin cols)) (hl : l.Nodup)
    (k : Keypad rows cols) :
    (updateKeys lv time k l).m_pressedKeyQueue =
      sendAll k.m_pressedKeyQueue
        ((l.filter fun rc => sendsPressed (k.m_keys rc.1 rc.2) (lv rc.1 rc.2)).map
          fun rc => (k.m_keys rc.1 rc.2).chr) := by
  induction l generalizing k with
  | nil => rfl
  | cons a l ih =>
    rw [updateKeys_cons]
    rw [List.nodup_cons] at hl
    rw [ih hl.2]
    have hkeys : ∀ rc ∈ l,
        (updateKey k a.1 a.2 (toLevel (lv a.1 a.2)) (time a.1 a.2)).m_keys rc.1 rc.2 =
          k.m_keys rc.1 rc.2 := by
      intro rc hrc
      apply updateKey_keys_other
      rintro ⟨h1, h2⟩
      exact hl.1 (by rw [← Prod.ext h1 h2]; exact hrc)
    have hfilter : (l.filter fun rc => sendsPressed
          ((updateKey k a.1 a.2 (toLevel (lv a.1 a.2)) (time a.1 a.2)).m_keys rc.1 rc.2)
          (lv rc.1 rc.2)) =
        l.filter fun rc => sendsPressed (k.m_keys rc.1 rc.2) (lv rc.1 rc.2) :=
      List.filter_congr (fun rc hrc => by rw [hkeys rc hrc])
    rw [hfilter]
    have hmap : ((l.filter fun rc => sendsPressed (k.m_keys rc.1 rc.2) (lv rc.1 rc.2)).map
          fun rc => ((updateKey k a.1 a.2 (toLevel (lv a.1 a.2)) (time a.1 a.2)).m_keys
            rc.1 rc.2).chr) =
        (l.filter fun rc => sendsPressed (k.m_keys rc.1 rc.2) (lv rc.1 rc.2)).map
          fun rc => (k.m_keys rc.1 rc.2).chr :=
      List.map_congr_left (fun rc hrc => by rw [hkeys rc (List.mem_of_mem_filter hrc)])
    rw [hmap, updateKey_pressedQueue]
    cases hs : sendsPressed (k.m_keys a.1 a.2) (lv a.1 a.2) <;>
      simp [List.filter_cons, hs, sendAll_cons]

/-- In a pass over distinct cells the held queue receives, in the order of the
pass, the characters of the cells that pass the hold test in the initial
object. -/
theorem updateKeys_heldQueue (lv : Fin rows → Fin cols → Bool)
    (time : Fin rows → Fin cols → Int) (l : List (Fin rows × Fin cols)) (hl : l.Nodup)
    (k : Keypad rows cols) :
    (updateKeys lv time k l).m_heldKeyQueue =
      sendAll k.m_heldKeyQueue
        ((l.filter fun rc =>
            sendsHeld k.m_holdTime (k.m_keys rc.1 rc.2) (lv rc.1 rc.2) (time rc.1 rc.2)).map
          fun rc => (k.m_keys rc.1 rc.2).chr) := by
  induction l generalizing k with
  | nil => rfl
  | cons a l ih =>
    rw [updateKeys_cons]
    rw [List.nodup_cons] at hl
    rw [ih hl.2]
    have hkeys : ∀ rc ∈ l,
        (updateKey k a.1 a.2 (toLevel (lv a.1 a.2)) (time a.1 a.2)).m_keys rc.1 rc.2 =
          k.m_keys rc.1 rc.2 := by
      intro rc hrc
      apply updateKey_keys_other
      rintro ⟨h1, h2⟩
      exact hl.1 (by rw [← Prod.ext h1 h2]; exact hrc)
    rw [updateKey_holdTime]
    have hfilter : (l.filter fun rc => sendsHeld k.m_holdTime
          ((updateKey k a.1 a.2 (toLevel (lv a.1 a.2)) (time a.1 a.2)).m_keys rc.1 rc.2)
          (lv rc.1 rc.2) (time rc.1 rc.2)) =
        l.filter fun rc =>
          sendsHeld k.m_holdTime (k.m_keys rc.1 rc.2) (lv rc.1 rc.2) (time rc.1 rc.2) :=
      List.filter_congr (fun rc hrc => by rw [hkeys rc hrc])
    rw [hfilter]
    have hmap : ((l.filter fun rc =>
          sendsHeld k.m_holdTime (k.m_keys rc.1 rc.2) (lv rc.1 rc.2) (time rc.1 rc.2)).map
          fun rc => ((updateKey k a.1 a.2 (toLevel (lv a.1 a.2)) (time a.1 a.2)).m_keys
            rc.1 rc.2).chr) =
        (l.filter fun rc =>
          sendsHeld k.m_holdTime (k.m_keys rc.1 rc.2) (lv rc.1 rc.2) (time rc.1 rc.2)).map
          fun rc => (k.m_keys rc.1 rc.2).chr :=
      List.map_congr_left (fun rc hrc => by rw [hkeys rc (List.mem_of_mem_filter hrc)])
    rw [hmap, updateKey_heldQueue]
    cases hs : sendsHeld k.m_holdTime (k.m_keys a.1 a.2) (lv a.1 a.2) (time a.1 a.2) <;>
      simp [List.filter_cons, hs, sendAll_cons]

/-- With room for all of them, the characters sent are appended in order. -/
theorem sendAll_items_of_room (q : Queue) (cs : List Char)
    (h : q.items.length + cs.length ≤ q.cap) : (sendAll q cs).items = q.items ++ cs := by
  induction cs generalizing q with
  | nil => simp [sendAll]
  | cons ch cs ih =>
    rw [sendAll_cons]
    simp only [List.length_cons] at h
    have hsend : (xQueueSend q ch).2 = { q with items := q.items ++ [ch] } := by
      unfold xQueueSend
      rw [if_pos (by omega)]
    rw [ih]
    · rw [hsend]
      simp
    · rw [hsend]
      simp only [List.length_append, List.length_singleton]
      omega

/-- After `initPins` the pin of every column is low. -/
theorem initPins_low (colPins : Fin cols → Int) (g : Int → Bool) (c : Fin cols) :
    initPins colPins g (colPins c) = false := by
  have hstay : ∀ (l : List (Fin cols)) (g : Int → Bool) (p : Int), g p = false →
      (l.foldl (fun g c => gpio_set_level g (colPins c) false) g) p = false := by
    intro l
    induction l with
    | nil => exact fun _ _ h => h
    | cons a l ih =>
      intro g p h
      apply ih
      show (if p = colPins a then false else g p) = false
      split_ifs
      · rfl
      · exact h
  have hset : ∀ (l : List (Fin cols)) (g : Int → Bool), c ∈ l →
      (l.foldl (fun g c => gpio_set_level g (colPins c) false) g) (colPins c) = false := by
    intro l
    induction l with
    | nil => exact fun _ h => absurd h (List.not_mem_nil _)
    | cons a l ih =>
      intro g h
      rcases List.mem_cons.mp h with h1 | h1
      · subst h1
        exact hstay l _ _ (gpio_set_level_at _ _ _)
      · exact ih _ h1
  exact hset _ g (List.mem_finRange c)

theorem lowered_stays_low (pins : Fin cols → Int) (l : List (Fin rows × Fin cols))
    (g : Int → Bool) (p : Int) (h : g p = false) :
    (l.foldl (fun g rc => gpio_set_level g (pins rc.2) false) g) p = false := by
  induction l generalizing g with
  | nil => exact h
  | cons a l ih =>
    apply ih
    show (if p = pins a.2 then false else g p) = false
    split_ifs
    · rfl
    · exact h

theorem visited_column_low (pins : Fin cols → Int) (l : List (Fin rows × Fin cols))
    (g : Int → Bool) (rc : Fin rows × Fin cols) (h : rc ∈ l) :
    (l.foldl (fun g rc => gpio_set_level g (pins rc.2) false) g) (pins rc.2) = false := by
  induction l generalizing g with
  | nil => exact absurd h (List.not_mem_nil _)
  | cons a l ih =>
    rcases List.mem_cons.mp h with h1 | h1
    · subst h1
      exact lowered_stays_low pins l _ _ (gpio_set_level_at _ _ _)
    · exact ih _ h1

end Sweep

/-! ## Claims on the debounce gate and the sweep -/

section ScanClaims

variable {rows cols : Nat}

theorem scanKeys_rejected (k : Keypad rows cols) (g : Int → Bool) (env : ScanEnv rows cols)
    (h : toU64 (env.timeGate - (k.m_lastScanTime : Int)) ≤ k.m_debounceTime) :
    scanKeys k g env = (k, g) := by
  unfold scanKeys
  rw [if_neg (by omega)]

theorem scanKeys_accepted (k : Keypad rows cols) (g : Int → Bool) (env : ScanEnv rows cols)
    (h : toU64 (env.timeGate - (k.m_lastScanTime : Int)) > k.m_debounceTime) :
    scanKeys k g env =
      ({ (scanLoops env (k, g)).1 with m_lastScanTime := toU64 env.timeDone },
        (scanLoops env (k, g)).2) := by
  unfold scanKeys
  rw [if_pos h]

/-- C9 as stated fails at equality: with `m_lastScanTime = 0`,
`m_debounceTime = 10000` and a clock reading of `10000` the difference equals the
debounce time, yet `scanKeys` changes nothing: the key read active stays `IDLE`
where the transition would make it `PRESSED`, and `m_lastScanTime` stays `0`. -/
theorem scanKeys_at_debounce_boundary :
    (10000 : Int) - (oneKeyKeypad.m_lastScanTime : Int) ≥ (oneKeyKeypad.m_debounceTime : Int) ∧
    scanKeys oneKeyKeypad allLow (sweepEnv 10000 (fun _ _ => true)) = (oneKeyKeypad, allLow) ∧
    ((scanKeys oneKeyKeypad allLow (sweepEnv 10000 (fun _ _ => true))).1.m_keys 0 0).state =
      KeyState.IDLE ∧
    ((updateKey oneKeyKeypad 0 0 KeyLevel.HIGH 10000).m_keys 0 0).state = KeyState.PRESSED ∧
    (scanKeys oneKeyKeypad allLow (sweepEnv 10000 (fun _ _ => true))).1.m_lastScanTime ≠
      toU64 10000 := by
  have hno : scanKeys oneKeyKeypad allLow (sweepEnv 10000 (fun _ _ => true)) =
      (oneKeyKeypad, allLow) := scanKeys_rejected _ _ _ (by decide)
  refine ⟨by decide, hno, ?_, by decide, ?_⟩
  · rw [hno]
    decide
  · rw [hno]
    decide

/-- C9, amended: when the difference `now - m_lastScanTime`, taken in `uint64_t`
as the code takes it (the plain difference for a clock reading not earlier than
`m_lastScanTime`), strictly exceeds `m_debounceTime`, `scanKeys` performs a full
sweep: the object it leaves is the one obtained by calling `updateKey` once for
each cell, every cell exactly once, with the level read for that cell, and that
read is taken with the pin of the column of the cell driven high; each key ends
as a single `updateKey` call leaves it; the pin of every column is low at the
end (given at least one row, or a pin that was low before); `m_lastScanTime` is
the final clock reading converted to `uint64_t`. At equality and below nothing
changes. -/
theorem scanKeys_full_sweep (k : Keypad rows cols) (g : Int → Bool) (env : ScanEnv rows cols) :
    (toU64 (env.timeGate - (k.m_lastScanTime : Int)) > k.m_debounceTime →
      (scanKeys k g env).1 =
        { updateKeys (levelsRead k g env) env.timeKey k (scanOrder rows cols) with
          m_lastScanTime := toU64 env.timeDone } ∧
      (∀ (r : Fin rows) (c : Fin cols), (scanKeys k g env).1.m_keys r c =
        (updateKey k r c (toLevel (levelsRead k g env r c)) (env.timeKey r c)).m_keys r c) ∧
      (∀ c : Fin cols, 0 < rows ∨ g (k.m_colPins c) = false →
        (scanKeys k g env).2 (k.m_colPins c) = false) ∧
      (scanKeys k g env).1.m_lastScanTime = toU64 env.timeDone) ∧
    (∀ (r : Fin rows) (c : Fin cols),
      levelsRead k g env r c =
        env.gpio_get_level r c (latchAtRead k.m_colPins (scanOrder rows cols) g (r, c))
          (k.m_rowPins r) ∧
      latchAtRead k.m_colPins (scanOrder rows cols) g (r, c) (k.m_colPins c) = true) ∧
    (∀ lv : Fin rows → Fin cols → Bool, ReadsWhileDriven k env lv → levelsRead k g env = lv) ∧
    (toU64 (env.timeGate - (k.m_lastScanTime : Int)) ≤ k.m_debounceTime →
      scanKeys k g env = (k, g)) ∧
    (scanOrder rows cols).Nodup ∧ (∀ rc : Fin rows × Fin cols, rc ∈ scanOrder rows cols) ∧
    ((k.m_lastScanTime : Int) ≤ env.timeGate →
      env.timeGate - (k.m_lastScanTime : Int) < (U64 : Int) →
      ((toU64 (env.timeGate - (k.m_lastScanTime : Int)) : Nat) : Int) =
        env.timeGate - (k.m_lastScanTime : Int)) := by
  refine ⟨?_, ?_, levelsRead_of_readsWhileDriven k g env, scanKeys_rejected k g env,
    scanOrder_nodup rows cols, mem_scanOrder, ?_⟩
  · intro hacc
    rw [scanKeys_accepted k g env hacc, scanLoops_read k g env]
    refine ⟨rfl, ?_, ?_, rfl⟩
    · intro r c
      exact updateKeys_keys_mem _ env.timeKey _ (scanOrder_nodup rows cols) k r c
        (mem_scanOrder (r, c))
    · intro c hc
      rcases hc with hrows | hlow
      · exact visited_column_low k.m_colPins (scanOrder rows cols) g (⟨0, hrows⟩, c)
          (mem_scanOrder _)
      · exact lowered_stays_low k.m_colPins (scanOrder rows cols) g _ hlow
  · intro r c
    exact ⟨rfl, latchAtRead_high k.m_colPins (scanOrder rows cols) g (r, c)⟩
  · intro hmono hrange
    exact toU64_of_nonneg_lt _ (by omega) hrange

theorem scanKeys_full_sweep_witness :
    (scanKeys twoByTwoKeypad (fun _ => true) (sweepEnv 10001 (fun _ _ => true))).1.m_lastScanTime =
      toU64 10001 ∧
    (∀ (r c : Fin 2),
      (scanKeys twoByTwoKeypad (fun _ => true) (sweepEnv 10001 (fun _ _ => true))).1.m_keys r c =
        (updateKey twoByTwoKeypad r c
          (toLevel (levelsRead twoByTwoKeypad (fun _ => true)
            (sweepEnv 10001 (fun _ _ => true)) r c)) 10001).m_keys r c) ∧
    (∀ c : Fin 2, 0 < 2 ∨ (fun _ => true) (twoByTwoKeypad.m_colPins c) = false →
      (scanKeys twoByTwoKeypad (fun _ => true) (sweepEnv 10001 (fun _ _ => true))).2
        (twoByTwoKeypad.m_colPins c) = false) :=
  ⟨((scanKeys_full_sweep twoByTwoKeypad (fun _ => true)
      (sweepEnv 10001 (fun _ _ => true))).1 (by decide)).2.2.2,
    ((scanKeys_full_sweep twoByTwoKeypad (fun _ => true)
      (sweepEnv 10001 (fun _ _ => true))).1 (by decide)).2.1,
    ((scanKeys_full_sweep twoByTwoKeypad (fun _ => true)
      (sweepEnv 10001 (fun _ _ => true))).1 (by decide)).2.2.1⟩

theorem getPressedN_take (n : Nat) (k : Keypad rows cols) :
    (getPressedN n k).1 = k.m_pressedKeyQueue.items.take n := by
  induction n generalizing k with
  | zero => rfl
  | succ n ih =>
    unfold getPressedN
    rw [ih]
    unfold getPressed xQueueReceive
    cases hq : k.m_pressedKeyQueue.items <;> simp [hq]

theorem getHeldN_take (n : Nat) (k : Keypad rows cols) :
    (getHeldN n k).1 = k.m_heldKeyQueue.items.take n := by
  induction n generalizing k with
  | zero => rfl
  | succ n ih =>
    unfold getHeldN
    rw [ih]
    unfold getHeld xQueueReceive
    cases hq : k.m_heldKeyQueue.items <;> simp [hq]

/-- In a list ordered by an asymmetric relation, of two members that pass the
filter the earlier one for the relation comes first in the filtered, mapped
list. -/
theorem filter_map_order {α β : Type} (R : α → α → Prop) (hasym : ∀ a b, R a b → ¬ R b a)
    (l : List α) (hl : l.Pairwise R) (p : α → Bool) (f : α → β) (a b : α)
    (ha : a ∈ l) (hb : b ∈ l) (hpa : p a = true) (hpb : p b = true) (hab : R a b) :
    ∃ pre mid post, (l.filter p).map f = pre ++ f a :: (mid ++ f b :: post) := by
  obtain ⟨s, t, rfl⟩ := List.append_of_mem ha
  rw [List.pairwise_append] at hl
  obtain ⟨_, hat, hst⟩ := hl
  have hbt : b ∈ t := by
    rcases List.mem_append.mp hb with h1 | h1
    · exact absurd (hst b h1 a (List.mem_cons_self _ _)) (hasym a b hab)
    · rcases List.mem_cons.mp h1 with h2 | h2
      · rw [h2] at hab
        exact absurd hab (hasym a a hab)
      · exact h2
  obtain ⟨m, q, rfl⟩ := List.append_of_mem hbt
  refine ⟨(s.filter p).map f, (m.filter p).map f, (q.filter p).map f, ?_⟩
  simp [List.filter_cons, hpa, hpb]

theorem scanOrder_asymm (a b : Fin rows × Fin cols)
    (h : a.1 < b.1 ∨ (a.1 = b.1 ∧ a.2 < b.2)) : ¬ (b.1 < a.1 ∨ (b.1 = a.1 ∧ b.2 < a.2)) := by
  rcases h with h | ⟨h1, h2⟩
  · rintro (h3 | ⟨h3, _⟩)
    · exact lt_asymm h h3
    · rw [h3] at h
      exact lt_irrefl _ h
  · rintro (h3 | ⟨_, h4⟩)
    · rw [h1] at h3
      exact lt_irrefl _ h3
    · exact lt_asymm h2 h4

/-- C7 as stated fails: in an accepted sweep of a 2x2 keypad whose four idle
keys all read active, the character `b` of cell (row 0, column 1) is enqueued
before the character `c` of cell (row 1, column 0), although column 0 comes
before column 1. -/
theorem scanKeys_not_column_major :
    (twoByTwoKeypad.m_keys 0 1).chr = 'b' ∧ (twoByTwoKeypad.m_keys 1 0).chr = 'c' ∧
    (scanKeys twoByTwoKeypad allLow
      (sweepEnv 20000 (fun _ _ => true))).1.m_pressedKeyQueue.items = ['a', 'b', 'c', 'd'] := by
  decide

/-- C7, amended: within an accepted sweep events are enqueued in row-major scan
order. The pressed queue receives, by successive zero-timeout sends, the
characters of the emitting cells listed in the order of `scanOrder`; with room
in the queue they are appended in that order; of two cells that both emit, the
character of `(r1, c1)` comes before that of `(r2, c2)` whenever `r1 < r2`, or
`r1 = r2` and `c1 < c2`; the same holds for the held queue; and successive
`getPressed` / `getHeld` calls return the queued characters oldest first. -/
theorem scanKeys_enqueues_row_major (k : Keypad rows cols) (g : Int → Bool)
    (env : ScanEnv rows cols)
    (hacc : toU64 (env.timeGate - (k.m_lastScanTime : Int)) > k.m_debounceTime) :
    (scanKeys k g env).1.m_pressedKeyQueue =
      sendAll k.m_pressedKeyQueue (pressedSent k (levelsRead k g env)) ∧
    (k.m_pressedKeyQueue.items.length + (pressedSent k (levelsRead k g env)).length ≤
        k.m_pressedKeyQueue.cap →
      (scanKeys k g env).1.m_pressedKeyQueue.items =
        k.m_pressedKeyQueue.items ++ pressedSent k (levelsRead k g env)) ∧
    (scanKeys k g env).1.m_heldKeyQueue =
      sendAll k.m_heldKeyQueue (heldSent k (levelsRead k g env) env.timeKey) ∧
    (k.m_heldKeyQueue.items.length + (heldSent k (levelsRead k g env) env.timeKey).length ≤
        k.m_heldKeyQueue.cap →
      (scanKeys k g env).1.m_heldKeyQueue.items =
        k.m_heldKeyQueue.items ++ heldSent k (levelsRead k g env) env.timeKey) ∧
    (∀ a b : Fin rows × Fin cols,
      sendsPressed (k.m_keys a.1 a.2) (levelsRead k g env a.1 a.2) = true →
      sendsPressed (k.m_keys b.1 b.2) (levelsRead k g env b.1 b.2) = true →
      a.1 < b.1 ∨ (a.1 = b.1 ∧ a.2 < b.2) →
      ∃ pre mid post, pressedSent k (levelsRead k g env) =
        pre ++ (k.m_keys a.1 a.2).chr :: (mid ++ (k.m_keys b.1 b.2).chr :: post)) ∧
    (∀ a b : Fin rows × Fin cols,
      sendsHeld k.m_holdTime (k.m_keys a.1 a.2) (levelsRead k g env a.1 a.2)
        (env.timeKey a.1 a.2) = true →
      sendsHeld k.m_holdTime (k.m_keys b.1 b.2) (levelsRead k g env b.1 b.2)
        (env.timeKey b.1 b.2) = true →
      a.1 < b.1 ∨ (a.1 = b.1 ∧ a.2 < b.2) →
      ∃ pre mid post, heldSent k (levelsRead k g env) env.timeKey =
        pre ++ (k.m_keys a.1 a.2).chr :: (mid ++ (k.m_keys b.1 b.2).chr :: post)) ∧
    (scanOrder rows cols).Pairwise (fun a b => a.1 < b.1 ∨ (a.1 = b.1 ∧ a.2 < b.2)) ∧
    (∀ (n : Nat) (k2 : Keypad rows cols),
      (getPressedN n k2).1 = k2.m_pressedKeyQueue.items.take n ∧
      (getHeldN n k2).1 = k2.m_heldKeyQueue.items.take n) := by
  have hp : (scanKeys k g env).1.m_pressedKeyQueue =
      sendAll k.m_pressedKeyQueue (pressedSent k (levelsRead k g env)) := by
    rw [scanKeys_accepted k g env hacc, scanLoops_read k g env]
    exact updateKeys_pressedQueue _ env.timeKey _ (scanOrder_nodup rows cols) k
  have hh : (scanKeys k g env).1.m_heldKeyQueue =
      sendAll k.m_heldKeyQueue (heldSent k (levelsRead k g env) env.timeKey) := by
    rw [scanKeys_accepted k g env hacc, scanLoops_read k g env]
    exact updateKeys_heldQueue _ env.timeKey _ (scanOrder_nodup rows cols) k
  refine ⟨hp, ?_, hh, ?_, ?_, ?_, scanOrder_pairwise rows cols, ?_⟩
  · intro hroom
    rw [hp]
    exact sendAll_items_of_room _ _ hroom
  · intro hroom
    rw [hh]
    exact sendAll_items_of_room _ _ hroom
  · intro a b hpa hpb hab
    exact filter_map_order _ scanOrder_asymm (scanOrder rows cols) (scanOrder_pairwise rows cols)
      (fun rc => sendsPressed (k.m_keys rc.1 rc.2) (levelsRead k g env rc.1 rc.2))
      (fun rc => (k.m_keys rc.1 rc.2).chr) a b (mem_scanOrder a) (mem_scanOrder b) hpa hpb hab
  · intro a b hpa hpb hab
    exact filter_map_order _ scanOrder_asymm (scanOrder rows cols) (scanOrder_pairwise rows cols)
      (fun rc => sendsHeld k.m_holdTime (k.m_keys rc.1 rc.2) (levelsRead k g env rc.1 rc.2)
        (env.timeKey rc.1 rc.2))
      (fun rc => (k.m_keys rc.1 rc.2).chr) a b (mem_scanOrder a) (mem_scanOrder b) hpa hpb hab
  · intro n k2
    exact ⟨getPressedN_take n k2, getHeldN_take n k2⟩

theorem scanKeys_enqueues_row_major_witness :
    (scanKeys twoByTwoKeypad allLow (sweepEnv 20000 (fun _ _ => true))).1.m_pressedKeyQueue.items =
      twoByTwoKeypad.m_pressedKeyQueue.items ++
        pressedSent twoByTwoKeypad
          (levelsRead twoByTwoKeypad allLow (sweepEnv 20000 (fun _ _ => true))) ∧
    pressedSent twoByTwoKeypad
      (levelsRead twoByTwoKeypad allLow (sweepEnv 20000 (fun _ _ => true))) =
        ['a', 'b', 'c', 'd'] :=
  ⟨(scanKeys_enqueues_row_major twoByTwoKeypad allLow (sweepEnv 20000 (fun _ _ => true))
      (by decide)).2.1 (by decide),
    by decide⟩

theorem updateKey_idle_low (k : Keypad rows cols) (r : Fin rows) (c : Fin cols) (now : Int)
    (h : (k.m_keys r c).state = KeyState.IDLE) : updateKey k r c (toLevel false) now = k := by
  unfold updateKey toLevel
  simp [h]

theorem updateKeys_idle_low (lv : Fin rows → Fin cols → Bool)
    (time : Fin rows → Fin cols → Int) (l : List (Fin rows × Fin cols)) (k : Keypad rows cols)
    (h : ∀ rc ∈ l, lv rc.1 rc.2 = false ∧ (k.m_keys rc.1 rc.2).state = KeyState.IDLE) :
    updateKeys lv time k l = k := by
  induction l with
  | nil => rfl
  | cons a l ih =>
    rw [updateKeys_cons, (h a (List.mem_cons_self _ _)).1,
      updateKey_idle_low k a.1 a.2 _ (h a (List.mem_cons_self _ _)).2]
    exact ih (fun rc hrc => h rc (List.mem_cons_of_mem _ hrc))

/-- A pass in which every cell but one is idle and reads inactive amounts to
the single `updateKey` call for that cell. -/
theorem updateKeys_single (lv : Fin rows → Fin cols → Bool)
    (time : Fin rows → Fin cols → Int) (l : List (Fin rows × Fin cols)) (hl : l.Nodup)
    (k : Keypad rows cols) (r0 : Fin rows) (c0 : Fin cols) (hmem : (r0, c0) ∈ l)
    (h : ∀ r c, ¬ (r = r0 ∧ c = c0) →
      lv r c = false ∧ (k.m_keys r c).state = KeyState.IDLE) :
    updateKeys lv time k l = updateKey k r0 c0 (toLevel (lv r0 c0)) (time r0 c0) := by
  induction l with
  | nil => exact absurd hmem (List.not_mem_nil _)
  | cons a l ih =>
    rw [List.nodup_cons] at hl
    rw [updateKeys_cons]
    by_cases ha : a = (r0, c0)
    · subst ha
      apply updateKeys_idle_low
      intro rc hrc
      have hne : ¬ (rc.1 = r0 ∧ rc.2 = c0) := by
        rintro ⟨h1, h2⟩
        have hrc2 : rc = (r0, c0) := Prod.ext h1 h2
        exact hl.1 (hrc2 ▸ hrc)
      refine ⟨(h rc.1 rc.2 hne).1, ?_⟩
      rw [updateKey_keys_other _ _ _ _ _ _ _ hne]
      exact (h rc.1 rc.2 hne).2
    · have hne : ¬ (a.1 = r0 ∧ a.2 = c0) := by
        rintro ⟨h1, h2⟩
        exact ha (Prod.ext h1 h2)
      rw [(h a.1 a.2 hne).1, updateKey_idle_low k a.1 a.2 _ (h a.1 a.2 hne).2]
      apply ih hl.2
      rcases List.mem_cons.mp hmem with h1 | h1
      · exact absurd h1.symm ha
      · exact h1

/-- An accepted sweep in which every cell but one is idle and reads inactive
amounts to the `updateKey` call for that cell, followed by the update of
`m_lastScanTime`. -/
theorem scanKeys_single (k : Keypad rows cols) (g : Int → Bool) (env : ScanEnv rows cols)
    (lv : Fin rows → Fin cols → Bool) (hlv : ReadsWhileDriven k env lv)
    (hacc : toU64 (env.timeGate - (k.m_lastScanTime : Int)) > k.m_debounceTime)
    (r0 : Fin rows) (c0 : Fin cols)
    (h : ∀ r c, ¬ (r = r0 ∧ c = c0) →
      lv r c = false ∧ (k.m_keys r c).state = KeyState.IDLE) :
    (scanKeys k g env).1 =
      { updateKey k r0 c0 (toLevel (lv r0 c0)) (env.timeKey r0 c0) with
        m_lastScanTime := toU64 env.timeDone } := by
  rw [scanKeys_accepted k g env hacc, scanLoops_eq k g env lv hlv]
  show { updateKeys lv env.timeKey k (scanOrder rows cols) with
      m_lastScanTime := toU64 env.timeDone } = _
  rw [updateKeys_single lv env.timeKey _ (scanOrder_nodup rows cols) k r0 c0
    (mem_scanOrder _) h]

end ScanClaims

/-! ## The end-to-end scenario -/

section Scenario

theorem setKey_setKey {rows cols : Nat} (keys : Fin rows → Fin cols → Key) (r : Fin rows)
    (c : Fin cols) (a b : Key) : setKey (setKey keys r c a) r c b = setKey keys r c b := by
  funext r2 c2
  unfold setKey
  split_ifs <;> rfl

theorem onlyRow1Col2_other (r c : Fin 4) (h : ¬ (r = 1 ∧ c = 2)) : onlyRow1Col2 r c = false := by
  unfold onlyRow1Col2
  exact decide_eq_false h

theorem scenario_first_sweep (keymap : Fin 4 → Fin 4 → Char) (rowPins colPins : Fin 4 → Int)
    (bufSize holdTime : Nat) (hbuf : 0 < bufSize) (g : Int → Bool) (t : Int)
    (ht0 : 0 < t) (ht1 : t < (U64 : Int)) (env : ScanEnv 4 4)
    (henv : IdealSweep (scenarioKeypad keymap rowPins colPins bufSize holdTime) env t
      onlyRow1Col2) :
    (scanKeys (scenarioKeypad keymap rowPins colPins bufSize holdTime) g env).1 =
      scenarioState keymap rowPins colPins bufSize holdTime t KeyState.PRESSED [] (toU64 t) := by
  obtain ⟨hg, hk, hd, hlv⟩ := henv
  have hconv := toU64_of_nonneg_lt t (by omega) ht1
  rw [scanKeys_single _ g env onlyRow1Col2 hlv _ 1 2]
  · rw [hk, hd]
    unfold updateKey scenarioKeypad scenarioState Keypad.init xQueueCreate xQueueSend toLevel
    simp [onlyRow1Col2, hbuf]
  · intro r c hne
    exact ⟨onlyRow1Col2_other r c hne, rfl⟩
  · rw [hg]
    show toU64 (t - ((0 : Nat) : Int)) > 0
    simp only [Nat.cast_zero, sub_zero]
    omega

theorem scenario_pressed_sweep (keymap : Fin 4 → Fin 4 → Char) (rowPins colPins : Fin 4 → Int)
    (bufSize holdTime : Nat) (hbuf : 0 < bufSize) (g : Int → Bool) (t t2 : Int) (last : Nat)
    (hmono : t ≤ t2) (hrange : t2 - t < (U64 : Int))
    (hacc : toU64 (t2 - (last : Int)) > 0) (env : ScanEnv 4 4)
    (henv : IdealSweep (scenarioKeypad keymap rowPins colPins bufSize holdTime) env t2
      onlyRow1Col2) :
    (scanKeys (scenarioState keymap rowPins colPins bufSize holdTime t KeyState.PRESSED []
        last) g env).1 =
      if t2 - t > (holdTime : Int) then
        scenarioState keymap rowPins colPins bufSize holdTime t KeyState.HELD [keymap 1 2]
          (toU64 t2)
      else
        scenarioState keymap rowPins colPins bufSize holdTime t KeyState.PRESSED [] (toU64 t2) := by
  obtain ⟨hg, hk, hd, hlv⟩ := henv
  have hconv := toU64_of_nonneg_lt (t2 - t) (by omega) hrange
  have hlv2 : ReadsWhileDriven (scenarioState keymap rowPins colPins bufSize holdTime t
      KeyState.PRESSED [] last) env onlyRow1Col2 := hlv
  rw [scanKeys_single _ g env onlyRow1Col2 hlv2 _ 1 2]
  · rw [hk, hd]
    have hiff : holdTime < toU64 (t2 - t) ↔ (holdTime : Int) < t2 - t := by
      constructor <;> intro h <;> omega
    unfold updateKey scenarioState xQueueSend toLevel
    simp only [setKey_at, setKey_setKey]
    by_cases hgt : (holdTime : Int) < t2 - t
    · simp [onlyRow1Col2, hbuf, hiff, hgt]
    · simp [onlyRow1Col2, hiff, hgt]
  · intro r c hne
    refine ⟨onlyRow1Col2_other r c hne, ?_⟩
    show (setKey _ 1 2 _ r c).state = KeyState.IDLE
    rw [setKey_other _ _ _ _ _ _ hne]
  · rw [hg]
    exact hacc

theorem scenario_held_sweep (keymap : Fin 4 → Fin 4 → Char) (rowPins colPins : Fin 4 → Int)
    (bufSize holdTime : Nat) (g : Int → Bool) (t t2 : Int) (last : Nat) (held : List Char)
    (hacc : toU64 (t2 - (last : Int)) > 0) (env : ScanEnv 4 4)
    (henv : IdealSweep (scenarioKeypad keymap rowPins colPins bufSize holdTime) env t2
      onlyRow1Col2) :
    (scanKeys (scenarioState keymap rowPins colPins bufSize holdTime t KeyState.HELD held
        last) g env).1 =
      scenarioState keymap rowPins colPins bufSize holdTime t KeyState.HELD held (toU64 t2) := by
  obtain ⟨hg, hk, hd, hlv⟩ := henv
  have hlv2 : ReadsWhileDriven (scenarioState keymap rowPins colPins bufSize holdTime t
      KeyState.HELD held last) env onlyRow1Col2 := hlv
  rw [scanKeys_single _ g env onlyRow1Col2 hlv2 _ 1 2]
  · rw [hk, hd]
    unfold updateKey scenarioState toLevel
    simp [setKey_at, onlyRow1Col2]
  · intro r c hne
    refine ⟨onlyRow1Col2_other r c hne, ?_⟩
    show (setKey _ 1 2 _ r c).state = KeyState.IDLE
    rw [setKey_other _ _ _ _ _ _ hne]
  · rw [hg]
    exact hacc

/-- C8 as stated fails: with the example keymap, `m_debounceTime = 0`,
`m_holdTime = 2000` and three sweeps at clock readings 1000, 2000 and 3000 in
which only the key at row 1, column 2 reads active, the pressed queue holds
`'6'` after the first sweep but the held queue is still empty after the third:
the elapsed 2000 microseconds do not exceed the hold time. -/
theorem end_to_end_hold_2000_not_held :
    exampleKeymap 1 2 = '6' ∧
    (scanSequence (scenarioKeypad exampleKeymap exampleRowPins exampleColPins 10 2000, allLow)
      [sweepEnv 1000 onlyRow1Col2]).1.m_pressedKeyQueue.items = ['6'] ∧
    (scanSequence (scenarioKeypad exampleKeymap exampleRowPins exampleColPins 10 2000, allLow)
      [sweepEnv 1000 onlyRow1Col2, sweepEnv 2000 onlyRow1Col2,
        sweepEnv 3000 onlyRow1Col2]).1.m_heldKeyQueue.items = [] ∧
    ((scanSequence (scenarioKeypad exampleKeymap exampleRowPins exampleColPins 10 2000, allLow)
      [sweepEnv 1000 onlyRow1Col2, sweepEnv 2000 onlyRow1Col2,
        sweepEnv 3000 onlyRow1Col2]).1.m_keys 1 2).state = KeyState.PRESSED := by
  decide

/-- C8, amended: for every 4x4 keymap, starting from all keys `IDLE` and empty
queues with `m_debounceTime = 0` and `m_holdTime = holdTime`, if only the key at
row 1, column 2 reads active on three consecutive sweeps at clock readings `t`,
`t + 1000` and `t + 2000` (`t > 0`), then after the first sweep the pressed queue
holds exactly `keymap 1 2` and the held queue is empty, the pressed queue
receives nothing further, and after the third sweep the held queue holds exactly
that character when `holdTime < 2000` and is empty otherwise, in particular for
`holdTime = 2000`. -/
theorem end_to_end_three_sweeps (keymap : Fin 4 → Fin 4 → Char)
    (rowPins colPins : Fin 4 → Int) (bufSize holdTime : Nat) (hbuf : 0 < bufSize)
    (g : Int → Bool) (t : Int) (ht0 : 0 < t) (ht1 : t + 2000 < 9223372036854775808)
    (e1 e2 e3 : ScanEnv 4 4)
    (h1 : IdealSweep (scenarioKeypad keymap rowPins colPins bufSize holdTime) e1 t
      onlyRow1Col2)
    (h2 : IdealSweep (scenarioKeypad keymap rowPins colPins bufSize holdTime) e2 (t + 1000)
      onlyRow1Col2)
    (h3 : IdealSweep (scenarioKeypad keymap rowPins colPins bufSize holdTime) e3 (t + 2000)
      onlyRow1Col2) :
    (scanSequence (scenarioKeypad keymap rowPins colPins bufSize holdTime, g)
      [e1]).1.m_pressedKeyQueue.items = [keymap 1 2] ∧
    (scanSequence (scenarioKeypad keymap rowPins colPins bufSize holdTime, g)
      [e1]).1.m_heldKeyQueue.items = [] ∧
    (scanSequence (scenarioKeypad keymap rowPins colPins bufSize holdTime, g)
      [e1, e2]).1.m_pressedKeyQueue.items = [keymap 1 2] ∧
    (scanSequence (scenarioKeypad keymap rowPins colPins bufSize holdTime, g)
      [e1, e2, e3]).1.m_pressedKeyQueue.items = [keymap 1 2] ∧
    (scanSequence (scenarioKeypad keymap rowPins colPins bufSize holdTime, g)
      [e1, e2, e3]).1.m_heldKeyQueue.items =
        if holdTime < 2000 then [keymap 1 2] else [] := by
  have hU : (U64 : Int) = 18446744073709551616 := rfl
  have s1 := scenario_first_sweep keymap rowPins colPins bufSize holdTime hbuf g t ht0
    (by omega) e1 h1
  have hlast1 := toU64_of_nonneg_lt t (by omega) (by omega)
  have hacc2 : toU64 (t + 1000 - ((toU64 t : Nat) : Int)) > 0 := by
    rw [hlast1]
    have := toU64_of_nonneg_lt (t + 1000 - t) (by omega) (by omega)
    omega
  have hlast2 := toU64_of_nonneg_lt (t + 1000) (by omega) (by omega)
  have hacc3 : toU64 (t + 2000 - ((toU64 (t + 1000) : Nat) : Int)) > 0 := by
    rw [hlast2]
    have := toU64_of_nonneg_lt (t + 2000 - (t + 1000)) (by omega) (by omega)
    omega
  have s2 := scenario_pressed_sweep keymap rowPins colPins bufSize holdTime hbuf
    (scanKeys (scenarioKeypad keymap rowPins colPins bufSize holdTime) g e1).2 t (t + 1000)
    (toU64 t) (by omega) (by omega) hacc2 e2 h2
  rw [← s1] at s2
  have e12 : scanSequence (scenarioKeypad keymap rowPins colPins bufSize holdTime, g) [e1] =
      scanKeys (scenarioKeypad keymap rowPins colPins bufSize holdTime) g e1 := rfl
  have e22 : scanSequence (scenarioKeypad keymap rowPins colPins bufSize holdTime, g) [e1, e2] =
      scanKeys (scanKeys (scenarioKeypad keymap rowPins colPins bufSize holdTime) g e1).1
        (scanKeys (scenarioKeypad keymap rowPins colPins bufSize holdTime) g e1).2 e2 := rfl
  have e32 : scanSequence (scenarioKeypad keymap rowPins colPins bufSize holdTime, g)
      [e1, e2, e3] =
      scanKeys (scanSequence (scenarioKeypad keymap rowPins colPins bufSize holdTime, g)
          [e1, e2]).1
        (scanSequence (scenarioKeypad keymap rowPins colPins bufSize holdTime, g) [e1, e2]).2
        e3 := rfl
  rw [e32, e22, e12, s2, s1]
  refine ⟨rfl, rfl, ?_, ?_⟩
  · split_ifs <;> rfl
  · by_cases hh : t + 1000 - t > (holdTime : Int)
    · rw [if_pos hh, scenario_held_sweep keymap rowPins colPins bufSize holdTime _ t (t + 2000)
        (toU64 (t + 1000)) _ hacc3 e3 h3, if_pos (by omega)]
      exact ⟨rfl, rfl⟩
    · rw [if_neg hh, scenario_pressed_sweep keymap rowPins colPins bufSize holdTime hbuf _ t
        (t + 2000) (toU64 (t + 1000)) (by omega) (by omega) hacc3 e3 h3]
      by_cases hh2 : t + 2000 - t > (holdTime : Int)
      · rw [if_pos hh2, if_pos (by omega)]
        exact ⟨rfl, rfl⟩
      · rw [if_neg hh2, if_neg (by omega)]
        exact ⟨rfl, rfl⟩

theorem end_to_end_three_sweeps_witness :
    (scanSequence (scenarioKeypad exampleKeymap exampleRowPins exampleColPins 10 1999, allLow)
      [sweepEnv 1000 onlyRow1Col2]).1.m_pressedKeyQueue.items = [exampleKeymap 1 2] ∧
    (scanSequence (scenarioKeypad exampleKeymap exampleRowPins exampleColPins 10 1999, allLow)
      [sweepEnv 1000 onlyRow1Col2, sweepEnv (1000 + 1000) onlyRow1Col2,
        sweepEnv (1000 + 2000) onlyRow1Col2]).1.m_heldKeyQueue.items =
      (if 1999 < 2000 then [exampleKeymap 1 2] else []) :=
  ⟨(end_to_end_three_sweeps exampleKeymap exampleRowPins exampleColPins 10 1999 (by decide)
      allLow 1000 (by decide) (by decide) (sweepEnv 1000 onlyRow1Col2)
      (sweepEnv (1000 + 1000) onlyRow1Col2) (sweepEnv (1000 + 2000) onlyRow1Col2)
      ⟨rfl, fun _ _ => rfl, rfl, fun _ _ _ _ => rfl⟩
      ⟨rfl, fun _ _ => rfl, rfl, fun _ _ _ _ => rfl⟩
      ⟨rfl, fun _ _ => rfl, rfl, fun _ _ _ _ => rfl⟩).1,
    (end_to_end_three_sweeps exampleKeymap exampleRowPins exampleColPins 10 1999 (by decide)
      allLow 1000 (by decide) (by decide) (sweepEnv 1000 onlyRow1Col2)
      (sweepEnv (1000 + 1000) onlyRow1Col2) (sweepEnv (1000 + 2000) onlyRow1Col2)
      ⟨rfl, fun _ _ => rfl, rfl, fun _ _ _ _ => rfl⟩
      ⟨rfl, fun _ _ => rfl, rfl, fun _ _ _ _ => rfl⟩
      ⟨rfl, fun _ _ => rfl, rfl, fun _ _ _ _ => rfl⟩).2.2.2.2⟩

end Scenario

/-! ## A key that stays active -/

section Hold

variable {rows cols : Nat}

theorem updateKey_held_high (k : Keypad rows cols) (r : Fin rows) (c : Fin cols) (now : Int)
    (h : (k.m_keys r c).state = KeyState.HELD) : updateKey k r c KeyLevel.HIGH now = k := by
  unfold updateKey
  simp [h]

theorem sustainKey_held (k : Keypad rows cols) (r : Fin rows) (c : Fin cols) (ts : List Int)
    (h : (k.m_keys r c).state = KeyState.HELD) : sustainKey k r c ts = k := by
  induction ts with
  | nil => rfl
  | cons t ts ih =>
    show sustainKey (updateKey k r c KeyLevel.HIGH t) r c ts = k
    rw [updateKey_held_high k r c t h]
    exact ih

theorem updateKey_pressed_high (k : Keypad rows cols) (r : Fin rows) (c : Fin cols) (now : Int)
    (h : (k.m_keys r c).state = KeyState.PRESSED) (hmono : (k.m_keys r c).holdTimer ≤ now)
    (hrange : now - (k.m_keys r c).holdTimer < (U64 : Int)) :
    updateKey k r c KeyLevel.HIGH now =
      if now > (k.m_keys r c).holdTimer + (k.m_holdTime : Int) then
        { k with
          m_keys := setKey k.m_keys r c { k.m_keys r c with state := KeyState.HELD }
          m_heldKeyQueue := (xQueueSend k.m_heldKeyQueue (k.m_keys r c).chr).2 }
      else k := by
  have hconv := toU64_of_nonneg_lt (now - (k.m_keys r c).holdTimer) (by omega) hrange
  have hiff : toU64 (now - (k.m_keys r c).holdTimer) > k.m_holdTime ↔
      now > (k.m_keys r c).holdTimer + (k.m_holdTime : Int) := by
    constructor <;> intro h <;> omega
  unfold updateKey
  simp only [if_true, h, hiff, true_and]
  simp

/-- A pressed key that keeps reading active becomes `HELD`, with one send to the
held queue, as soon as a clock reading exceeds `holdTimer + m_holdTime`, and is
left alone by every other call. -/
theorem sustainKey_pressed (k : Keypad rows cols) (r : Fin rows) (c : Fin cols)
    (ts : List Int) (h : (k.m_keys r c).state = KeyState.PRESSED)
    (hts : ∀ t ∈ ts,
      (k.m_keys r c).holdTimer ≤ t ∧ t - (k.m_keys r c).holdTimer < (U64 : Int)) :
    sustainKey k r c ts =
      if ∃ t ∈ ts, t > (k.m_keys r c).holdTimer + (k.m_holdTime : Int) then
        { k with
          m_keys := setKey k.m_keys r c { k.m_keys r c with state := KeyState.HELD }
          m_heldKeyQueue := (xQueueSend k.m_heldKeyQueue (k.m_keys r c).chr).2 }
      else k := by
  induction ts with
  | nil => simp [sustainKey]
  | cons t ts ih =>
    show sustainKey (updateKey k r c KeyLevel.HIGH t) r c ts = _
    have ht := hts t (List.mem_cons_self _ _)
    rw [updateKey_pressed_high k r c t h ht.1 ht.2]
    by_cases hgt : t > (k.m_keys r c).holdTimer + (k.m_holdTime : Int)
    · rw [if_pos hgt, if_pos ⟨t, List.mem_cons_self _ _, hgt⟩]
      apply sustainKey_held
      show (setKey _ r c _ r c).state = KeyState.HELD
      rw [setKey_at]
    · rw [if_neg hgt, ih (fun t2 h2 => hts t2 (List.mem_cons_of_mem _ h2))]
      have hex : (∃ t2 ∈ t :: ts, t2 > (k.m_keys r c).holdTimer + (k.m_holdTime : Int)) ↔
          ∃ t2 ∈ ts, t2 > (k.m_keys r c).holdTimer + (k.m_holdTime : Int) := by
        constructor
        · rintro ⟨t2, hm, hp⟩
          rcases List.mem_cons.mp hm with h1 | h1
          · exact absurd (h1 ▸ hp) hgt
          · exact ⟨t2, h1, hp⟩
        · rintro ⟨t2, hm, hp⟩
          exact ⟨t2, List.mem_cons_of_mem _ hm, hp⟩
      simp only [hex]

theorem sustainKey_key_congr (k1 k2 : Keypad rows cols) (r : Fin rows) (c : Fin cols)
    (ts : List Int) (hkey : k1.m_keys r c = k2.m_keys r c)
    (hhold : k1.m_holdTime = k2.m_holdTime) :
    (sustainKey k1 r c ts).m_keys r c = (sustainKey k2 r c ts).m_keys r c := by
  induction ts generalizing k1 k2 with
  | nil => exact hkey
  | cons t ts ih =>
    show (sustainKey (updateKey k1 r c KeyLevel.HIGH t) r c ts).m_keys r c =
      (sustainKey (updateKey k2 r c KeyLevel.HIGH t) r c ts).m_keys r c
    apply ih
    · exact updateKey_key_congr k1 k2 r c _ t hkey hhold
    · rw [updateKey_holdTime, updateKey_holdTime, hhold]

/-- Over accepted sweeps in which a cell reads active, the key of that cell
evolves as under the successive `updateKey` calls for that cell alone. -/
theorem scanSequence_key (r : Fin rows) (c : Fin cols) (s : Keypad rows cols × (Int → Bool))
    (envs : List (ScanEnv rows cols)) (h : ActiveSweeps r c s envs) :
    (scanSequence s envs).1.m_keys r c =
      (sustainKey s.1 r c (envs.map fun env => env.timeKey r c)).m_keys r c := by
  induction h with
  | nil s => rfl
  | cons s env envs lv hacc hlv hact _ ih =>
    show (scanSequence (scanKeys s.1 s.2 env) envs).1.m_keys r c =
      (sustainKey (updateKey s.1 r c KeyLevel.HIGH (env.timeKey r c)) r c
        (envs.map fun env => env.timeKey r c)).m_keys r c
    rw [ih]
    apply sustainKey_key_congr
    · rw [scanKeys_accepted s.1 s.2 env hacc, scanLoops_eq s.1 s.2 env lv hlv]
      show (updateKeys lv env.timeKey s.1 (scanOrder rows cols)).m_keys r c = _
      rw [updateKeys_keys_mem lv env.timeKey _ (scanOrder_nodup rows cols) s.1 r c
        (mem_scanOrder (r, c)), hact]
      rfl
    · rw [scanKeys_holdTime, updateKey_holdTime]

theorem updateKey_chr (k : Keypad rows cols) (r r2 : Fin rows) (c c2 : Fin cols)
    (level : KeyLevel) (now : Int) :
    ((updateKey k r c level now).m_keys r2 c2).chr = (k.m_keys r2 c2).chr := by
  by_cases h : r2 = r ∧ c2 = c
  · obtain ⟨h1, h2⟩ := h
    subst h1
    subst h2
    unfold updateKey
    simp only []
    split_ifs <;> simp [setKey_at]
  · rw [updateKey_keys_other k r r2 c c2 level now h]

/-- A scan never changes the character of a key. -/
theorem scanKeys_chr (k : Keypad rows cols) (g : Int → Bool) (env : ScanEnv rows cols)
    (r : Fin rows) (c : Fin cols) :
    ((scanKeys k g env).1.m_keys r c).chr = (k.m_keys r c).chr := by
  by_cases hacc : toU64 (env.timeGate - (k.m_lastScanTime : Int)) > k.m_debounceTime
  · rw [scanKeys_accepted k g env hacc, scanLoops_read k g env]
    show ((updateKeys (levelsRead k g env) env.timeKey k (scanOrder rows cols)).m_keys r c).chr = _
    rw [updateKeys_keys_mem _ env.timeKey _ (scanOrder_nodup rows cols) k r c
      (mem_scanOrder (r, c))]
    exact updateKey_chr k r r c c _ _
  · rw [scanKeys_rejected k g env (by omega)]

theorem sendAll_append (q : Queue) (cs ds : List Char) :
    sendAll q (cs ++ ds) = sendAll (sendAll q cs) ds := by
  unfold sendAll
  rw [List.foldl_append]

/-- One scan sends to the held queue the characters of the cells of
`heldCells`, in that order. -/
theorem scanKeys_heldQueue (k : Keypad rows cols) (g : Int → Bool) (env : ScanEnv rows cols) :
    (scanKeys k g env).1.m_heldKeyQueue =
      sendAll k.m_heldKeyQueue
        ((heldCells k g env).map fun rc => (k.m_keys rc.1 rc.2).chr) := by
  unfold heldCells
  by_cases hacc : toU64 (env.timeGate - (k.m_lastScanTime : Int)) > k.m_debounceTime
  · rw [if_pos hacc, scanKeys_accepted k g env hacc, scanLoops_read k g env]
    exact updateKeys_heldQueue _ env.timeKey _ (scanOrder_nodup rows cols) k
  · rw [if_neg hacc, scanKeys_rejected k g env (by omega)]
    rfl

/-- Successive scans send to the held queue the characters of the cells of
`heldLog`, in that order. -/
theorem scanSequence_heldQueue (envs : List (ScanEnv rows cols))
    (s : Keypad rows cols × (Int → Bool)) :
    (scanSequence s envs).1.m_heldKeyQueue =
      sendAll s.1.m_heldKeyQueue
        ((heldLog s envs).map fun rc => (s.1.m_keys rc.1 rc.2).chr) := by
  induction envs generalizing s with
  | nil => rfl
  | cons env envs ih =>
    show (scanSequence (scanKeys s.1 s.2 env) envs).1.m_heldKeyQueue = _
    rw [ih, scanKeys_heldQueue]
    show _ = sendAll s.1.m_heldKeyQueue
      ((heldCells s.1 s.2 env ++ heldLog (scanKeys s.1 s.2 env) envs).map
        fun rc => (s.1.m_keys rc.1 rc.2).chr)
    rw [List.map_append, sendAll_append]
    congr 1
    exact List.map_congr_left (fun rc _ => scanKeys_chr s.1 s.2 env rc.1 rc.2)

theorem scanKeys_key_active (r : Fin rows) (c : Fin cols) (k : Keypad rows cols)
    (g : Int → Bool) (env : ScanEnv rows cols) (lv : Fin rows → Fin cols → Bool)
    (hacc : toU64 (env.timeGate - (k.m_lastScanTime : Int)) > k.m_debounceTime)
    (hlv : ReadsWhileDriven k env lv) (hact : lv r c = true) :
    (scanKeys k g env).1.m_keys r c =
      (updateKey k r c KeyLevel.HIGH (env.timeKey r c)).m_keys r c := by
  rw [scanKeys_accepted k g env hacc, scanLoops_eq k g env lv hlv]
  show (updateKeys lv env.timeKey k (scanOrder rows cols)).m_keys r c = _
  rw [updateKeys_keys_mem lv env.timeKey _ (scanOrder_nodup rows cols) k r c
    (mem_scanOrder (r, c)), hact]
  rfl

theorem count_eq_one_of_nodup {α : Type} [BEq α] [LawfulBEq α] (l : List α) (a : α)
    (hl : l.Nodup) (ha : a ∈ l) : l.count a = 1 := by
  induction l with
  | nil => exact absurd ha (List.not_mem_nil _)
  | cons b l ih =>
    rw [List.nodup_cons] at hl
    rw [List.count_cons]
    by_cases hb : b = a
    · subst hb
      simp [List.count_eq_zero_of_not_mem hl.1]
    · have hmem : a ∈ l := by
        rcases List.mem_cons.mp ha with h1 | h1
        · exact absurd h1.symm hb
        · exact h1
      simp [ih hl.2 hmem, hb]

/-- In an accepted scan that reads the cell active, the cell occurs once among
the cells that send to the held queue if its key passes the hold test, and
does not occur otherwise. -/
theorem heldCells_count (r : Fin rows) (c : Fin cols) (k : Keypad rows cols)
    (g : Int → Bool) (env : ScanEnv rows cols) (lv : Fin rows → Fin cols → Bool)
    (hacc : toU64 (env.timeGate - (k.m_lastScanTime : Int)) > k.m_debounceTime)
    (hlv : ReadsWhileDriven k env lv) (hact : lv r c = true) :
    (heldCells k g env).count (r, c) =
      if (k.m_keys r c).state = KeyState.PRESSED ∧
          toU64 (env.timeKey r c - (k.m_keys r c).holdTimer) > k.m_holdTime then 1
      else 0 := by
  unfold heldCells
  rw [if_pos hacc, levelsRead_of_readsWhileDriven k g env lv hlv]
  by_cases hp : (k.m_keys r c).state = KeyState.PRESSED ∧
      toU64 (env.timeKey r c - (k.m_keys r c).holdTimer) > k.m_holdTime
  · rw [if_pos hp, List.count_filter (by simp [sendsHeld, hact, hp.1, hp.2])]
    exact count_eq_one_of_nodup _ _ (scanOrder_nodup rows cols) (mem_scanOrder _)
  · rw [if_neg hp]
    apply List.count_eq_zero_of_not_mem
    intro hmem
    have hs := (List.mem_filter.mp hmem).2
    simp only [sendsHeld, hact, Bool.true_and, Bool.and_eq_true, beq_iff_eq,
      decide_eq_true_eq] at hs
    exact hp hs

theorem heldLog_cons (s : Keypad rows cols × (Int → Bool)) (env : ScanEnv rows cols)
    (envs : List (ScanEnv rows cols)) :
    heldLog s (env :: envs) = heldCells s.1 s.2 env ++ heldLog (scanKeys s.1 s.2 env) envs := rfl

/-- Once its key is `HELD`, a cell that keeps reading active sends nothing more
to the held queue. -/
theorem heldLog_count_held (r : Fin rows) (c : Fin cols) (s : Keypad rows cols × (Int → Bool))
    (envs : List (ScanEnv rows cols)) (h : ActiveSweeps r c s envs) :
    (s.1.m_keys r c).state = KeyState.HELD → (heldLog s envs).count (r, c) = 0 := by
  induction h with
  | nil s => exact fun _ => rfl
  | cons s env envs lv hacc hlv hact _ ih =>
    intro hst
    rw [heldLog_cons, List.count_append, heldCells_count r c s.1 s.2 env lv hacc hlv hact,
      if_neg (by simp [hst])]
    rw [ih]
    rw [scanKeys_key_active r c s.1 s.2 env lv hacc hlv hact,
      updateKey_held_high s.1 r c _ hst]
    exact hst

/-- A cell with a `PRESSED` key that keeps reading active sends to the held
queue exactly once if some clock reading exceeds `holdTimer + m_holdTime`, and
never otherwise. -/
theorem heldLog_count_pressed (r : Fin rows) (c : Fin cols)
    (s : Keypad rows cols × (Int → Bool)) (envs : List (ScanEnv rows cols))
    (h : ActiveSweeps r c s envs) :
    ∀ (t1 : Int) (hold : Nat), (s.1.m_keys r c).state = KeyState.PRESSED →
      (s.1.m_keys r c).holdTimer = t1 → s.1.m_holdTime = hold →
      (∀ env ∈ envs, t1 ≤ env.timeKey r c ∧ env.timeKey r c - t1 < (U64 : Int)) →
      (heldLog s envs).count (r, c) =
        if ∃ env ∈ envs, env.timeKey r c > t1 + (hold : Int) then 1 else 0 := by
  induction h with
  | nil s =>
    intro t1 hold _ _ _ _
    simp [heldLog]
  | cons s env envs lv hacc hlv hact hrest ih =>
    intro t1 hold hst hht hhold hts
    have ht := hts env (List.mem_cons_self _ _)
    have hconv := toU64_of_nonneg_lt (env.timeKey r c - t1) (by omega) ht.2
    have hkey := scanKeys_key_active r c s.1 s.2 env lv hacc hlv hact
    rw [heldLog_cons, List.count_append, heldCells_count r c s.1 s.2 env lv hacc hlv hact,
      hht, hhold]
    by_cases hgt : env.timeKey r c > t1 + (hold : Int)
    · have hwrap : toU64 (env.timeKey r c - t1) > hold := by omega
      rw [if_pos ⟨hst, hwrap⟩, if_pos ⟨env, List.mem_cons_self _ _, hgt⟩]
      rw [heldLog_count_held r c _ envs hrest]
      rw [hkey]
      unfold updateKey
      simp [hst, hht, hhold, hwrap, setKey_at]
    · have hwrap : ¬ toU64 (env.timeKey r c - t1) > hold := by omega
      rw [if_neg (fun hp => hwrap hp.2)]
      have hsame : (scanKeys s.1 s.2 env).1.m_keys r c = s.1.m_keys r c := by
        rw [hkey]
        unfold updateKey
        simp [hst, hht, hhold, hwrap]
      rw [ih t1 hold (by rw [hsame]; exact hst) (by rw [hsame]; exact hht)
        (by rw [scanKeys_holdTime]; exact hhold)
        (fun e he => hts e (List.mem_cons_of_mem _ he))]
      have hex : (∃ e ∈ env :: envs, e.timeKey r c > t1 + (hold : Int)) ↔
          ∃ e ∈ envs, e.timeKey r c > t1 + (hold : Int) := by
        constructor
        · rintro ⟨e, hm, hp⟩
          rcases List.mem_cons.mp hm with h1 | h1
          · exact absurd (h1 ▸ hp) hgt
          · exact ⟨e, h1, hp⟩
        · rintro ⟨e, hm, hp⟩
          exact ⟨e, List.mem_cons_of_mem _ hm, hp⟩
      simp only [hex, zero_add]

theorem activeSweeps_take (r : Fin rows) (c : Fin cols) (s : Keypad rows cols × (Int → Bool))
    (envs : List (ScanEnv rows cols)) (h : ActiveSweeps r c s envs) :
    ∀ n : Nat, ActiveSweeps r c s (envs.take n) := by
  induction h with
  | nil s =>
    intro n
    rw [List.take_nil]
    exact ActiveSweeps.nil s
  | cons s env envs lv hacc hlv hact _ ih =>
    intro n
    cases n with
    | zero => exact ActiveSweeps.nil s
    | succ n => exact ActiveSweeps.cons s env _ lv hacc hlv hact (ih n)

/-- A cell that starts `IDLE` and reads active at every accepted sweep sends to
the held queue exactly once if a clock reading after the first exceeds the
first reading by more than `m_holdTime`, and never otherwise. -/
theorem heldLog_count_idle (r : Fin rows) (c : Fin cols) (k : Keypad rows cols)
    (g : Int → Bool) (e1 : ScanEnv rows cols) (envs : List (ScanEnv rows cols))
    (h : ActiveSweeps r c (k, g) (e1 :: envs))
    (hidle : (k.m_keys r c).state = KeyState.IDLE)
    (hts : ∀ env ∈ envs,
      e1.timeKey r c ≤ env.timeKey r c ∧ env.timeKey r c - e1.timeKey r c < (U64 : Int)) :
    (heldLog (k, g) (e1 :: envs)).count (r, c) =
      if ∃ env ∈ envs, env.timeKey r c > e1.timeKey r c + (k.m_holdTime : Int) then 1
      else 0 := by
  cases h with
  | cons _ _ _ lv hacc hlv hact hrest =>
    have hkey := scanKeys_key_active r c k g e1 lv hacc hlv hact
    have hk1 : (scanKeys k g e1).1.m_keys r c =
        { k.m_keys r c with state := KeyState.PRESSED, holdTimer := e1.timeKey r c } := by
      rw [hkey]
      unfold updateKey
      simp [hidle, setKey_at]
    rw [heldLog_cons, List.count_append, heldCells_count r c k g e1 lv hacc hlv hact,
      if_neg (by simp [hidle]), zero_add]
    exact heldLog_count_pressed r c _ envs hrest (e1.timeKey r c) k.m_holdTime
      (by rw [hk1]) (by rw [hk1]) (scanKeys_holdTime k g e1) hts

/-- Over accepted sweeps in which a cell that starts `IDLE` reads active, with
non-decreasing `int64_t` clock readings, the held queue receives the characters
of the cells of `heldLog`, in which the cell occurs exactly once if a reading
after the first exceeds the first by more than `m_holdTime`, and not at all
otherwise; when no other cell sends, the held queue is the initial one after
exactly one send, or untouched. -/
theorem scanSequence_held_once (k : Keypad rows cols) (r : Fin rows) (c : Fin cols)
    (g : Int → Bool) (e1 : ScanEnv rows cols) (envs : List (ScanEnv rows cols)) (m : Nat)
    (hidle : (k.m_keys r c).state = KeyState.IDLE)
    (hact : ActiveSweeps r c (k, g) (e1 :: envs))
    (hsorted : ((e1 :: envs).map fun env => env.timeKey r c).Sorted (fun a b => a ≤ b))
    (hrange : ∀ env ∈ e1 :: envs,
      -9223372036854775808 ≤ env.timeKey r c ∧ env.timeKey r c < 9223372036854775808) :
    (scanSequence (k, g) (e1 :: envs.take m)).1.m_heldKeyQueue =
      sendAll k.m_heldKeyQueue
        ((heldLog (k, g) (e1 :: envs.take m)).map fun rc => (k.m_keys rc.1 rc.2).chr) ∧
    (heldLog (k, g) (e1 :: envs.take m)).count (r, c) =
      (if ∃ env ∈ envs.take m, env.timeKey r c > e1.timeKey r c + (k.m_holdTime : Int) then 1
      else 0) ∧
    ((∀ rc ∈ heldLog (k, g) (e1 :: envs.take m), rc = (r, c)) →
      (scanSequence (k, g) (e1 :: envs.take m)).1.m_heldKeyQueue =
        if ∃ env ∈ envs.take m, env.timeKey r c > e1.timeKey r c + (k.m_holdTime : Int) then
          (xQueueSend k.m_heldKeyQueue (k.m_keys r c).chr).2
        else k.m_heldKeyQueue) := by
  have hU : (U64 : Int) = 18446744073709551616 := rfl
  have hqueue := scanSequence_heldQueue (e1 :: envs.take m) (k, g)
  have h1 := hrange e1 (List.mem_cons_self _ _)
  have hts : ∀ env ∈ envs.take m,
      e1.timeKey r c ≤ env.timeKey r c ∧ env.timeKey r c - e1.timeKey r c < (U64 : Int) := by
    intro env henv
    have hmem : env ∈ envs := List.mem_of_mem_take henv
    have h2 := hrange env (List.mem_cons_of_mem _ hmem)
    have h3 : e1.timeKey r c ≤ env.timeKey r c :=
      List.rel_of_sorted_cons hsorted _ (List.mem_map_of_mem (fun env => env.timeKey r c) hmem)
    exact ⟨h3, by omega⟩
  have hcount := heldLog_count_idle r c k g e1 (envs.take m)
    (activeSweeps_take r c (k, g) (e1 :: envs) hact (m + 1)) hidle hts
  refine ⟨hqueue, hcount, ?_⟩
  intro hall
  rw [hqueue]
  have hrep := List.eq_replicate_of_mem hall
  by_cases hex : ∃ env ∈ envs.take m,
      env.timeKey r c > e1.timeKey r c + (k.m_holdTime : Int)
  · rw [if_pos hex] at hcount
    rw [if_pos hex]
    rw [hrep, List.count_replicate_self] at hcount
    rw [hrep, hcount]
    rfl
  · rw [if_neg hex] at hcount
    rw [if_neg hex]
    rw [hrep, List.count_replicate_self] at hcount
    rw [hrep, hcount]
    rfl

/-- C5: a key that starts `IDLE` and reads active at every accepted sweep, the
clock readings `t1 :: rest` of its `updateKey` calls being non-decreasing
`int64_t` values, is pressed at `t1` (one send to the pressed queue,
`holdTimer = t1`); after the first `n` further sweeps the held queue has received
the key's character by exactly one send if one of those sweeps had a clock
reading above `holdTimer + m_holdTime`, and nothing otherwise, the key being
`HELD` in the first case and `PRESSED` in the second. As this holds for every
`n`, the send happens at the first such sweep and is not repeated afterwards.
Over accepted sweeps in which the cell reads active its key evolves as under
these calls; and over such sweeps `e1 :: envs`, after the first `m` further
sweeps, the held queue is the initial one after the sends of the characters of
the cells of `heldLog`, in which the cell occurs exactly once if one of those
sweeps had a clock reading above `holdTimer + m_holdTime` and not at all
otherwise, so that, when no other cell sends, the held queue is the initial one
after exactly one send of the character, or the initial one. -/
theorem held_emitted_exactly_once (k : Keypad rows cols) (r : Fin rows) (c : Fin cols)
    (t1 : Int) (rest : List Int) (n : Nat)
    (hidle : (k.m_keys r c).state = KeyState.IDLE)
    (hsorted : (t1 :: rest).Sorted (fun a b => a ≤ b))
    (hrange : ∀ t ∈ t1 :: rest, -9223372036854775808 ≤ t ∧ t < 9223372036854775808) :
    (sustainKey k r c (t1 :: rest.take n)).m_heldKeyQueue =
      (if ∃ t ∈ rest.take n, t > t1 + (k.m_holdTime : Int) then
        (xQueueSend k.m_heldKeyQueue (k.m_keys r c).chr).2
      else k.m_heldKeyQueue) ∧
    ((sustainKey k r c (t1 :: rest.take n)).m_keys r c).state =
      (if ∃ t ∈ rest.take n, t > t1 + (k.m_holdTime : Int) then KeyState.HELD
      else KeyState.PRESSED) ∧
    ((sustainKey k r c (t1 :: rest.take n)).m_keys r c).holdTimer = t1 ∧
    (sustainKey k r c (t1 :: rest.take n)).m_pressedKeyQueue =
      (xQueueSend k.m_pressedKeyQueue (k.m_keys r c).chr).2 ∧
    (∀ (g : Int → Bool) (envs : List (ScanEnv rows cols)), ActiveSweeps r c (k, g) envs →
      (scanSequence (k, g) envs).1.m_keys r c =
        (sustainKey k r c (envs.map fun env => env.timeKey r c)).m_keys r c) ∧
    (∀ (g : Int → Bool) (e1 : ScanEnv rows cols) (envs : List (ScanEnv rows cols)) (m : Nat),
      ActiveSweeps r c (k, g) (e1 :: envs) →
      ((e1 :: envs).map fun env => env.timeKey r c).Sorted (fun a b => a ≤ b) →
      (∀ env ∈ e1 :: envs,
        -9223372036854775808 ≤ env.timeKey r c ∧ env.timeKey r c < 9223372036854775808) →
      (scanSequence (k, g) (e1 :: envs.take m)).1.m_heldKeyQueue =
        sendAll k.m_heldKeyQueue
          ((heldLog (k, g) (e1 :: envs.take m)).map fun rc => (k.m_keys rc.1 rc.2).chr) ∧
      (heldLog (k, g) (e1 :: envs.take m)).count (r, c) =
        (if ∃ env ∈ envs.take m, env.timeKey r c > e1.timeKey r c + (k.m_holdTime : Int)
          then 1 else 0) ∧
      ((∀ rc ∈ heldLog (k, g) (e1 :: envs.take m), rc = (r, c)) →
        (scanSequence (k, g) (e1 :: envs.take m)).1.m_heldKeyQueue =
          if ∃ env ∈ envs.take m, env.timeKey r c > e1.timeKey r c + (k.m_holdTime : Int)
            then (xQueueSend k.m_heldKeyQueue (k.m_keys r c).chr).2
          else k.m_heldKeyQueue)) := by
  have hlog : ∀ (g : Int → Bool) (e1 : ScanEnv rows cols) (envs : List (ScanEnv rows cols))
      (m : Nat), ActiveSweeps r c (k, g) (e1 :: envs) →
      ((e1 :: envs).map fun env => env.timeKey r c).Sorted (fun a b => a ≤ b) →
      (∀ env ∈ e1 :: envs,
        -9223372036854775808 ≤ env.timeKey r c ∧ env.timeKey r c < 9223372036854775808) →
      (scanSequence (k, g) (e1 :: envs.take m)).1.m_heldKeyQueue =
        sendAll k.m_heldKeyQueue
          ((heldLog (k, g) (e1 :: envs.take m)).map fun rc => (k.m_keys rc.1 rc.2).chr) ∧
      (heldLog (k, g) (e1 :: envs.take m)).count (r, c) =
        (if ∃ env ∈ envs.take m, env.timeKey r c > e1.timeKey r c + (k.m_holdTime : Int)
          then 1 else 0) ∧
      ((∀ rc ∈ heldLog (k, g) (e1 :: envs.take m), rc = (r, c)) →
        (scanSequence (k, g) (e1 :: envs.take m)).1.m_heldKeyQueue =
          if ∃ env ∈ envs.take m, env.timeKey r c > e1.timeKey r c + (k.m_holdTime : Int)
            then (xQueueSend k.m_heldKeyQueue (k.m_keys r c).chr).2
          else k.m_heldKeyQueue) :=
    fun g e1 envs m ha hs hr => scanSequence_held_once k r c g e1 envs m hidle ha hs hr
  have hsweeps : ∀ (g : Int → Bool) (envs : List (ScanEnv rows cols)),
      ActiveSweeps r c (k, g) envs →
      (scanSequence (k, g) envs).1.m_keys r c =
        (sustainKey k r c (envs.map fun env => env.timeKey r c)).m_keys r c :=
    fun g envs h => scanSequence_key r c (k, g) envs h
  have hU : (U64 : Int) = 18446744073709551616 := rfl
  have hfirst : updateKey k r c KeyLevel.HIGH t1 =
      { k with
        m_keys := setKey k.m_keys r c
          { k.m_keys r c with state := KeyState.PRESSED, holdTimer := t1 }
        m_pressedKeyQueue := (xQueueSend k.m_pressedKeyQueue (k.m_keys r c).chr).2 } := by
    unfold updateKey
    simp [hidle]
  have h1 := hrange t1 (List.mem_cons_self _ _)
  have hts : ∀ t ∈ rest.take n, t1 ≤ t ∧ t - t1 < (U64 : Int) := by
    intro t ht
    have hmem : t ∈ rest := List.mem_of_mem_take ht
    have h2 := hrange t (List.mem_cons_of_mem _ hmem)
    have h3 : t1 ≤ t := List.rel_of_sorted_cons hsorted t hmem
    exact ⟨h3, by omega⟩
  have hstep : sustainKey k r c (t1 :: rest.take n) =
      sustainKey (updateKey k r c KeyLevel.HIGH t1) r c (rest.take n) := rfl
  rw [hstep, hfirst, sustainKey_pressed _ r c (rest.take n) (by simp [setKey_at])
    (by simpa [setKey_at] using hts)]
  simp only [setKey_at]
  refine ⟨?_, ?_, ?_, ?_, hsweeps, hlog⟩
  all_goals
    by_cases hex : ∃ t ∈ rest.take n, t > t1 + (k.m_holdTime : Int)
    · simp [if_pos hex, setKey_at]
    · simp [if_neg hex, setKey_at]

theorem held_emitted_exactly_once_witness :
    (sustainKey exampleKeypad 1 2
      (1000 :: [200000, 501000, 501001, 700000].take 2)).m_heldKeyQueue.items = [] ∧
    (sustainKey exampleKeypad 1 2
      (1000 :: [200000, 501000, 501001, 700000].take 3)).m_heldKeyQueue.items = ['6'] ∧
    (sustainKey exampleKeypad 1 2
      (1000 :: [200000, 501000, 501001, 700000].take 4)).m_heldKeyQueue.items = ['6'] ∧
    ((scanSequence (exampleKeypad, allLow)
      [sweepEnv 20000 (fun _ _ => true), sweepEnv 520001 (fun _ _ => true)]).1.m_keys 1 2).state =
      KeyState.HELD ∧
    (scanSequence (exampleKeypad, allLow) (sweepEnv 20000 onlyRow1Col2 ::
      [sweepEnv 200000 onlyRow1Col2, sweepEnv 520000 onlyRow1Col2,
        sweepEnv 540000 onlyRow1Col2, sweepEnv 700000 onlyRow1Col2].take 2)).1.m_heldKeyQueue.items =
      [] ∧
    (scanSequence (exampleKeypad, allLow) (sweepEnv 20000 onlyRow1Col2 ::
      [sweepEnv 200000 onlyRow1Col2, sweepEnv 520000 onlyRow1Col2,
        sweepEnv 540000 onlyRow1Col2, sweepEnv 700000 onlyRow1Col2].take 3)).1.m_heldKeyQueue.items =
      ['6'] ∧
    (scanSequence (exampleKeypad, allLow) (sweepEnv 20000 onlyRow1Col2 ::
      [sweepEnv 200000 onlyRow1Col2, sweepEnv 520000 onlyRow1Col2,
        sweepEnv 540000 onlyRow1Col2, sweepEnv 700000 onlyRow1Col2].take 4)).1.m_heldKeyQueue.items =
      ['6'] ∧
    (heldLog (exampleKeypad, allLow) (sweepEnv 20000 onlyRow1Col2 ::
      [sweepEnv 200000 onlyRow1Col2, sweepEnv 520000 onlyRow1Col2,
        sweepEnv 540000 onlyRow1Col2, sweepEnv 700000 onlyRow1Col2].take 4)).count (1, 2) =
      1 := by
  have hact : ActiveSweeps (1 : Fin 4) (2 : Fin 4) (exampleKeypad, allLow)
      (sweepEnv 20000 onlyRow1Col2 ::
        [sweepEnv 200000 onlyRow1Col2, sweepEnv 520000 onlyRow1Col2,
          sweepEnv 540000 onlyRow1Col2, sweepEnv 700000 onlyRow1Col2]) :=
    ActiveSweeps.cons _ _ _ onlyRow1Col2 (by decide) (fun _ _ _ _ => rfl) (by decide)
      (ActiveSweeps.cons _ _ _ onlyRow1Col2 (by decide) (fun _ _ _ _ => rfl) (by decide)
        (ActiveSweeps.cons _ _ _ onlyRow1Col2 (by decide) (fun _ _ _ _ => rfl) (by decide)
          (ActiveSweeps.cons _ _ _ onlyRow1Col2 (by decide) (fun _ _ _ _ => rfl) (by decide)
            (ActiveSweeps.cons _ _ _ onlyRow1Col2 (by decide) (fun _ _ _ _ => rfl)
              (by decide) (ActiveSweeps.nil _)))))
  have hsweeps := fun m : Nat =>
    (held_emitted_exactly_once exampleKeypad 1 2 1000 [200000, 501000, 501001, 700000] 4
      (by decide) (by decide) (by decide)).2.2.2.2.2 allLow (sweepEnv 20000 onlyRow1Col2)
      [sweepEnv 200000 onlyRow1Col2, sweepEnv 520000 onlyRow1Col2,
        sweepEnv 540000 onlyRow1Col2, sweepEnv 700000 onlyRow1Col2] m hact
      (by decide) (by decide)
  refine ⟨?_, ?_, ?_, ?_, ?_, ?_, ?_, ?_⟩
  · rw [(held_emitted_exactly_once exampleKeypad 1 2 1000 [200000, 501000, 501001, 700000] 2
      (by decide) (by decide) (by decide)).1]
    decide
  · rw [(held_emitted_exactly_once exampleKeypad 1 2 1000 [200000, 501000, 501001, 700000] 3
      (by decide) (by decide) (by decide)).1]
    decide
  · rw [(held_emitted_exactly_once exampleKeypad 1 2 1000 [200000, 501000, 501001, 700000] 4
      (by decide) (by decide) (by decide)).1]
    decide
  · rw [(held_emitted_exactly_once exampleKeypad 1 2 1000 [200000, 501000, 501001, 700000] 4
      (by decide) (by decide) (by decide)).2.2.2.2.1 allLow
      [sweepEnv 20000 (fun _ _ => true), sweepEnv 520001 (fun _ _ => true)]
      (ActiveSweeps.cons _ _ _ (fun _ _ => true) (by decide) (fun _ _ _ _ => rfl) rfl
        (ActiveSweeps.cons _ _ _ (fun _ _ => true) (by decide) (fun _ _ _ _ => rfl) rfl
          (ActiveSweeps.nil _)))]
    decide
  · rw [(hsweeps 2).2.2 (by decide)]
    decide
  · rw [(hsweeps 3).2.2 (by decide)]
    decide
  · rw [(hsweeps 4).2.2 (by decide)]
    decide
  · rw [(hsweeps 4).2.1]
    decide

end Hold

end EspKeypad
